import Mathlib

/-!
Shallow embedding of the triangulation core of `mie-occ-wasm`
(`src/model_triangulation_impl.cpp`, `src/model_context.cpp/.hpp`,
`src/async_task.hpp`).

Modelling conventions:
* `Standard_Real` / `float` values are modelled by `ℚ` (exact arithmetic);
  a C++ floating-point division whose divisor is zero yields a non-finite
  IEEE value, which has no `ℚ` counterpart, so the UV-normalisation
  division is modelled as `Option ℚ` (`none` = non-finite result).
* `gp_Trsf` is modelled as an affine transform (3×3 linear part plus a
  translation).  `gp_Dir::Transformed` applies the vectorial part followed
  by a renormalisation by a positive scalar; only the direction (in
  particular the sign) of emitted normals is ever at stake in the claims,
  so direction transport is modelled by the linear part alone.
* `TopoDS_TShape*` identities and `TDF_Label`s are modelled as `Nat`.
* `std::unordered_map` with ids assigned as `map.size()` at insertion is
  modelled as an association list in insertion order; `emplace` returns the
  existing entry when the key is present, as in C++.
* The black-box tessellator (`BRepMesh_IncrementalMesh`,
  `BRep_Tool::Triangulation`, `PolygonOnTriangulation`, the
  `GCPnts_TangentialDeflection` sampler) is modelled by data attached to
  each face/edge: the per-face `Poly_Triangulation` (nodes, normals,
  UV nodes, 1-based triangles), the per-edge polygon-on-triangulation node
  list, and the per-edge fallback curve samples.
* The `while (!stack.empty())` loop of `resolveShapeTree` is embedded as a
  fuel-indexed structural recursion; the loop consumes at least one unit of
  stack weight per iteration, so any fuel beyond the initial stack weight
  gives the loop's exact result, and invariant theorems below are proved
  for every fuel.
-/

/-- A 3-component vector of exact rationals (models `gp_Pnt` / `gp_Dir`
coordinate triples). -/
structure Vec3 where
  x : ℚ
  y : ℚ
  z : ℚ
deriving DecidableEq, Repr, Inhabited

/-- Componentwise negation (models `gp_Dir::Reversed`). -/
def Vec3.neg (v : Vec3) : Vec3 := ⟨-v.x, -v.y, -v.z⟩

/-- Componentwise addition. -/
def Vec3.add (v w : Vec3) : Vec3 := ⟨v.x + w.x, v.y + w.y, v.z + w.z⟩

/-- A 3×3 matrix (models the vectorial part of a `gp_Trsf`). -/
structure Mat3 where
  a11 : ℚ
  a12 : ℚ
  a13 : ℚ
  a21 : ℚ
  a22 : ℚ
  a23 : ℚ
  a31 : ℚ
  a32 : ℚ
  a33 : ℚ
deriving DecidableEq, Repr, Inhabited

/-- The identity matrix. -/
def Mat3.id : Mat3 := ⟨1, 0, 0, 0, 1, 0, 0, 0, 1⟩

/-- Matrix multiplication. -/
def Mat3.mul (m n : Mat3) : Mat3 :=
  ⟨m.a11 * n.a11 + m.a12 * n.a21 + m.a13 * n.a31,
   m.a11 * n.a12 + m.a12 * n.a22 + m.a13 * n.a32,
   m.a11 * n.a13 + m.a12 * n.a23 + m.a13 * n.a33,
   m.a21 * n.a11 + m.a22 * n.a21 + m.a23 * n.a31,
   m.a21 * n.a12 + m.a22 * n.a22 + m.a23 * n.a32,
   m.a21 * n.a13 + m.a22 * n.a23 + m.a23 * n.a33,
   m.a31 * n.a11 + m.a32 * n.a21 + m.a33 * n.a31,
   m.a31 * n.a12 + m.a32 * n.a22 + m.a33 * n.a32,
   m.a31 * n.a13 + m.a32 * n.a23 + m.a33 * n.a33⟩

/-- Matrix–vector application. -/
def Mat3.mulVec (m : Mat3) (v : Vec3) : Vec3 :=
  ⟨m.a11 * v.x + m.a12 * v.y + m.a13 * v.z,
   m.a21 * v.x + m.a22 * v.y + m.a23 * v.z,
   m.a31 * v.x + m.a32 * v.y + m.a33 * v.z⟩

/-- Determinant (models `gp_Mat::Determinant`, used on
`gp_Trsf::VectorialPart`). -/
def Mat3.det (m : Mat3) : ℚ :=
  m.a11 * (m.a22 * m.a33 - m.a23 * m.a32)
    - m.a12 * (m.a21 * m.a33 - m.a23 * m.a31)
    + m.a13 * (m.a21 * m.a32 - m.a22 * m.a31)

/-- Matrix inverse via the adjugate (total; a `gp_Trsf` is always
invertible, so the zero-determinant branch is never reached by the code
paths modelled here). -/
def Mat3.inv (m : Mat3) : Mat3 :=
  let d := m.det
  ⟨(m.a22 * m.a33 - m.a23 * m.a32) / d,
   (m.a13 * m.a32 - m.a12 * m.a33) / d,
   (m.a12 * m.a23 - m.a13 * m.a22) / d,
   (m.a23 * m.a31 - m.a21 * m.a33) / d,
   (m.a11 * m.a33 - m.a13 * m.a31) / d,
   (m.a13 * m.a21 - m.a11 * m.a23) / d,
   (m.a21 * m.a32 - m.a22 * m.a31) / d,
   (m.a12 * m.a31 - m.a11 * m.a32) / d,
   (m.a11 * m.a22 - m.a12 * m.a21) / d⟩

/-- An affine transform: linear part plus translation (models `gp_Trsf`). -/
structure Trsf where
  linear : Mat3
  translation : Vec3
deriving DecidableEq, Repr, Inhabited

/-- The identity transform (models a default-constructed `gp_Trsf`). -/
def Trsf.id : Trsf := ⟨Mat3.id, ⟨0, 0, 0⟩⟩

/-- Transform composition: `t.comp s` applies `s` first, then `t`
(models `gp_Trsf::Multiplied`: `T1.Multiplied(T2) = T1 * T2`). -/
def Trsf.comp (t s : Trsf) : Trsf :=
  ⟨t.linear.mul s.linear, (t.linear.mulVec s.translation).add t.translation⟩

/-- Transform inverse (models `gp_Trsf::Inverted`). -/
def Trsf.inv (t : Trsf) : Trsf :=
  ⟨t.linear.inv, (t.linear.inv.mulVec t.translation).neg⟩

/-- Apply a transform to a point (models `gp_Pnt::Transformed`). -/
def Trsf.applyPnt (t : Trsf) (p : Vec3) : Vec3 :=
  (t.linear.mulVec p).add t.translation

/-- Apply a transform to a direction (models `gp_Dir::Transformed`:
the vectorial part only; the renormalisation performed by `gp_Dir` is a
positive rescaling that does not affect any claim about direction or
sign). -/
def Trsf.applyDir (t : Trsf) (v : Vec3) : Vec3 :=
  t.linear.mulVec v

/-- The 16-entry column-major 4×4 transform array built by
`resolveShapeTree` (rows 1–3 of each column come from
`gp_Trsf::Value(row, col)`, entries 3, 7, 11 are set to 0 and
entry 15 to 1). -/
def Trsf.toMatrix4 (t : Trsf) : List ℚ :=
  [t.linear.a11, t.linear.a21, t.linear.a31, 0,
   t.linear.a12, t.linear.a22, t.linear.a32, 0,
   t.linear.a13, t.linear.a23, t.linear.a33, 0,
   t.translation.x, t.translation.y, t.translation.z, 1]

/-! ## Tessellator data model (black-box outputs attached to faces/edges) -/

/-- The per-face `Poly_Triangulation` attached by the tessellation
primitive: nodes, per-node normals (after
`BRepLib_ToolTriangulatedShape::ComputeNormals`), per-node UV parameters,
and triangles as 1-based node-index triples (`Poly_Triangle::Get`). -/
structure PolyTriangulation where
  nodes : List Vec3
  normals : List Vec3
  uvNodes : List (ℚ × ℚ)
  triangles : List (Nat × Nat × Nat)
deriving DecidableEq, Repr, Inhabited

/-- `Node(i)` for a 1-based index `i` (total; out-of-range reads return the
default point, which never happens for well-formed tessellator output). -/
def PolyTriangulation.nodeAt (pt : PolyTriangulation) (i : Nat) : Vec3 :=
  pt.nodes.getD (i - 1) default

/-- Well-formedness contract of `Poly_Triangulation`: one normal and one UV
node per node, and every triangle's node indices lie in `[1, NbNodes]`. -/
def PolyTriangulation.WF (pt : PolyTriangulation) : Prop :=
  pt.normals.length = pt.nodes.length ∧
  pt.uvNodes.length = pt.nodes.length ∧
  ∀ t ∈ pt.triangles,
    (1 ≤ t.1 ∧ t.1 ≤ pt.nodes.length) ∧
    (1 ≤ t.2.1 ∧ t.2.1 ≤ pt.nodes.length) ∧
    (1 ≤ t.2.2 ∧ t.2.2 ≤ pt.nodes.length)

instance (pt : PolyTriangulation) : Decidable pt.WF := by
  unfold PolyTriangulation.WF; infer_instance

/-- A boundary edge of a face (post-tessellation state): its topology
identity (`TopoDS_TShape*`), its location, the optional
`Poly_PolygonOnTriangulation` node-index list (1-based indices into the
owning face's triangulation), and the points produced by the
`GCPnts_TangentialDeflection` fallback sampler on the unlocated edge. -/
structure EdgeData where
  tshape : Nat
  location : Trsf
  polygonNodes : Option (List Nat)
  curvePoints : List Vec3
deriving DecidableEq, Repr, Inhabited

/-- A face of a shape in its post-`BRepMesh_IncrementalMesh` state:
optional attached triangulation, location, orientation flag
(`face.Orientation() == TopAbs_REVERSED`), the UV bounds returned by
`BRepTools::UVBounds` as `(umin, umax, vmin, vmax)`, and its boundary
edges in `TopExp_Explorer` order. -/
structure Face where
  triangulation : Option PolyTriangulation
  location : Trsf
  reversed : Bool
  uvBounds : ℚ × ℚ × ℚ × ℚ
  edges : List EdgeData
deriving DecidableEq, Repr, Inhabited

/-! ## Shape tree -/

/-- `TopAbs_ShapeEnum` restricted to the cases distinguished by
`resolveShapeTree`. -/
inductive ShapeKind where
  | compound
  | compsolid
  | solid
  | shell
  | edge
  | other
deriving DecidableEq, Repr, Inhabited

/-- A `TopoDS_Shape`: underlying topology identity, shape type, location,
children (iterated by `TopoDS_Iterator` for compounds), and faces
(iterated by `TopExp_Explorer(shape, TopAbs_FACE)` after tessellation,
for solids/shells). -/
inductive Shape where
  | mk (tshape : Nat) (kind : ShapeKind) (location : Trsf)
      (children : List Shape) (faces : List Face)

/-- The shape's underlying topology identity (`shape.TShape().get()`). -/
def Shape.tshape : Shape → Nat
  | .mk t _ _ _ _ => t

/-- The shape's type (`shape.ShapeType()`). -/
def Shape.kind : Shape → ShapeKind
  | .mk _ k _ _ _ => k

/-- The shape's location transform (`shape.Location().Transformation()`). -/
def Shape.location : Shape → Trsf
  | .mk _ _ l _ _ => l

/-- The shape's children (`TopoDS_Iterator`). -/
def Shape.children : Shape → List Shape
  | .mk _ _ _ cs _ => cs

/-- The shape's faces in explorer order. -/
def Shape.faces : Shape → List Face
  | .mk _ _ _ _ fs => fs

/-! ## Output data model (`model_context.hpp`) -/

/-- `TriGeometry`: flat position/normal buffers, UV buffer (each scalar is
`some q` for a finite value, `none` for the non-finite result of an
unguarded division by a zero UV range), triangle index buffer and the
per-face vertex-count submesh table. -/
structure TriGeometry where
  positions : List ℚ
  normals : List ℚ
  uvs : List (Option ℚ)
  indices : List Nat
  submeshIndices : List Nat
deriving DecidableEq, Repr

instance : Inhabited TriGeometry := ⟨⟨[], [], [], [], []⟩⟩

/-- `LineGeometry`: flat segment-pair position buffer and per-edge
vertex-count submesh table. -/
structure LineGeometry where
  positions : List ℚ
  submeshIndices : List Nat
deriving DecidableEq, Repr

instance : Inhabited LineGeometry := ⟨⟨[], []⟩⟩

/-- `Material`: an RGB triple. -/
structure Material where
  r : ℚ
  g : ℚ
  b : ℚ
deriving DecidableEq, Repr, Inhabited

/-- `MeshShapeType`. -/
inductive MeshShapeType where
  | shell
  | solid
  | edge
  | compound
  | compsolid
  | unknown
deriving DecidableEq, Repr, Inhabited

/-- `Mesh`: one flattened scene node, with the fields set by
`resolveShapeTree` (geometry/material/parent indices use `-1` for
"none", as in the source). -/
structure Mesh where
  name : String
  transform : List ℚ
  shapeType : MeshShapeType
  triGeometryIndex : Int
  lineGeometryIndex : Int
  materialIndex : Int
  parentMeshIndex : Int
deriving DecidableEq, Repr, Inhabited

/-- `TriangulatedModel`: the final dense arrays. -/
structure TriangulatedModel where
  tris : List TriGeometry
  lines : List LineGeometry
  materials : List Material
  meshes : List Mesh
deriving DecidableEq, Repr, Inhabited

/-! ## Document / label model (`XCAFDoc_ShapeTool`, `XCAFDoc_ColorTool`,
`TDF_Label`) -/

/-- Attributes of one `TDF_Label`: whether it is a reference
(`XCAFDoc_ShapeTool::IsReference`), the referred label
(`GetReferredShape`), the optional `TDataStd_Name` attribute, and the
three color slots of `XCAFDoc_ColorTool::GetColor`. -/
structure LabelData where
  isReference : Bool
  referred : Nat
  name : Option String
  colorSurf : Option Material
  colorCurv : Option Material
  colorGen : Option Material
deriving Repr

instance : Inhabited LabelData := ⟨⟨false, 0, none, none, none, none⟩⟩

/-- The read-only document handed to the triangulation pass: the label
table (indexed by label id), the `shapeTool->Search` relation from a
shape's topology identity to its tree label, and the free (root) shapes
iterated by `compute`. -/
structure DocTree where
  labels : List LabelData
  search : List (Nat × Nat)
  roots : List Shape

/-- Label lookup (out-of-range labels behave as attribute-free). -/
def DocTree.getLabel (doc : DocTree) (l : Nat) : LabelData :=
  doc.labels.getD l default

/-- Association-list lookup, modelling `unordered_map::find`. -/
def alookup {α : Type} (m : List (Nat × α)) (k : Nat) : Option α :=
  (m.find? (fun e => e.1 == k)).map (·.2)

/-- `resolveReferredShapeLabel`: follow reference indirections until a
non-reference label is reached.  The C++ `while` loop is unbounded; it is
embedded with fuel equal to the label-table size, which is enough for
every acyclic chain inside the table. -/
def resolveReferredAux (doc : DocTree) : Nat → Nat → Nat
  | 0, l => l
  | fuel + 1, l =>
      if (doc.getLabel l).isReference then
        resolveReferredAux doc fuel (doc.getLabel l).referred
      else l

/-- `TriangulationContext::resolveReferredShapeLabel`. -/
def resolveReferredShapeLabel (doc : DocTree) (l : Nat) : Nat :=
  resolveReferredAux doc doc.labels.length l

/-- `TriangulationContext::getLabelColor`: try the surface, curve and
generic color slots in that fixed order. -/
def getLabelColor (doc : DocTree) (l : Nat) : Option Material :=
  match (doc.getLabel l).colorSurf with
  | some c => some c
  | none =>
    match (doc.getLabel l).colorCurv with
    | some c => some c
    | none => (doc.getLabel l).colorGen

/-- `TriangulationContext::getLabelName`: the `TDataStd_Name` attribute if
present, the empty string otherwise. -/
def getLabelName (doc : DocTree) (l : Nat) : String :=
  ((doc.getLabel l).name).getD ""

/-! ## Triangulation context state -/

/-- `TriGeometryInfo`. -/
structure TriGeometryInfo where
  id : Nat
  geometry : TriGeometry
deriving DecidableEq, Repr

/-- `LineGeometryInfo`. -/
structure LineGeometryInfo where
  id : Nat
  geometry : LineGeometry
deriving DecidableEq, Repr

/-- `MaterialInfo`. -/
structure MaterialInfo where
  id : Nat
  material : Material
deriving DecidableEq, Repr

/-- `ProcessedShapeInfo`. -/
structure ProcessedShapeInfo where
  triGeometryIndex : Int
  lineGeometryIndex : Int
deriving DecidableEq, Repr

/-- The mutable state of a `TriangulationContext`: the identity-keyed
output maps, the flat mesh-node list, the dedup maps, and an
instrumentation counter recording how many times the tessellation
computation (the body of `triangulateShape` past the dedup guard,
containing the `BRepMesh_IncrementalMesh` call) has actually run. -/
structure TContext where
  triGeometryMap : List (Nat × TriGeometryInfo)
  lineGeometryMap : List (Nat × LineGeometryInfo)
  materialMap : List (Nat × MaterialInfo)
  meshes : List Mesh
  processedShapeMap : List (Nat × ProcessedShapeInfo)
  processedEdgeSet : List Nat
  tessellationCount : Nat

/-- The freshly-constructed context. -/
def TContext.init : TContext := ⟨[], [], [], [], [], [], 0⟩

/-! ## `triangulateShape` (lines 162–363 of
`model_triangulation_impl.cpp`) -/

/-- The UV normalisation `(x - lo) / (hi - lo)` of lines 239–240.  The
division is unguarded in the source; over IEEE floats a zero-width range
produces a non-finite value, modelled here as `none`. -/
def uvNormalize (lo hi x : ℚ) : Option ℚ :=
  if hi - lo = 0 then none else some ((x - lo) / (hi - lo))

/-- Flatten a point into its three coordinates, in push order. -/
def Vec3.coords (v : Vec3) : List ℚ := [v.x, v.y, v.z]

/-- Accumulator threaded through the per-face loop of `triangulateShape`:
the tri/line buffers under construction and the context-wide
`processedEdgeSet`. -/
structure FaceAcc where
  triData : TriGeometry
  lineData : LineGeometry
  processedEdgeSet : List Nat

/-- The curve-sampling fallback of the per-edge loop (lines 310–334):
the code relocates the edge to the relative transform before running the
`GCPnts_TangentialDeflection` sampler, so each sampled point is the
relative transform applied to a point of the unlocated curve; fewer than
two points emit nothing. -/
def sampleEdgeFallback (rel : Trsf) (edge : EdgeData) (acc : FaceAcc) :
    FaceAcc :=
  let pts := edge.curvePoints
  if pts.length < 2 then acc
  else
    { acc with lineData :=
      { positions := acc.lineData.positions ++
          ((pts.zip pts.tail).flatMap (fun p =>
            (rel.applyPnt p.1).coords ++ (rel.applyPnt p.2).coords)),
        submeshIndices := acc.lineData.submeshIndices ++
          [(pts.length - 1) * 2] } }

/-- The body of the per-edge loop (lines 270–335): skip edges whose
identity was already visited, otherwise mark the identity visited and emit
segment pairs from the polygon-on-triangulation when the face has a
triangulation carrying one, falling back to the adaptive curve sampling
otherwise.  `parentTransform` is the owning shape's location. -/
def processEdge (parentTransform : Trsf) (faceTri : Option PolyTriangulation)
    (acc : FaceAcc) (edge : EdgeData) : FaceAcc :=
  if edge.tshape ∈ acc.processedEdgeSet then acc
  else
    let acc1 := { acc with processedEdgeSet := acc.processedEdgeSet ++ [edge.tshape] }
    let rel := parentTransform.inv.comp edge.location
    match faceTri, edge.polygonNodes with
    | some pt, some ns =>
      if ns.length < 2 then acc1
      else
        { acc1 with lineData :=
          { positions := acc1.lineData.positions ++
              ((ns.zip ns.tail).flatMap (fun p =>
                (rel.applyPnt (pt.nodeAt p.1)).coords ++
                  (rel.applyPnt (pt.nodeAt p.2)).coords)),
            submeshIndices := acc1.lineData.submeshIndices ++
              [(ns.length - 1) * 2] } }
    | some _, none => sampleEdgeFallback rel edge acc1
    | none, _ => sampleEdgeFallback rel edge acc1

/-- The body of the per-face loop (lines 193–337): when the face carries a
triangulation, append the submesh record, the transformed positions, the
(possibly sign-fixed) normals, the normalised UVs and the winding-ordered
triangle indices; then run the per-edge loop. -/
def processFace (parentTransform : Trsf) (acc : FaceAcc) (face : Face) :
    FaceAcc :=
  let acc :=
    match face.triangulation with
    | some pt =>
      let rel := parentTransform.inv.comp face.location
      let indexOffset := acc.triData.positions.length / 3
      let fixNormals : Bool :=
        Bool.xor face.reversed (decide (rel.linear.det < 0))
      let (umin, umax, vmin, vmax) := face.uvBounds
      { acc with triData :=
        { positions := acc.triData.positions ++
            (pt.nodes.flatMap (fun n => (rel.applyPnt n).coords)),
          normals := acc.triData.normals ++
            (pt.normals.flatMap (fun n =>
              if fixNormals then (rel.applyDir n.neg).coords
              else (rel.applyDir n).coords)),
          uvs := acc.triData.uvs ++
            (pt.uvNodes.flatMap (fun p =>
              [uvNormalize umin umax p.1, uvNormalize vmin vmax p.2])),
          indices := acc.triData.indices ++
            (pt.triangles.flatMap (fun t =>
              if face.reversed then
                [t.1 - 1 + indexOffset, t.2.1 - 1 + indexOffset,
                  t.2.2 - 1 + indexOffset]
              else
                [t.1 - 1 + indexOffset, t.2.2 - 1 + indexOffset,
                  t.2.1 - 1 + indexOffset])),
          submeshIndices := acc.triData.submeshIndices ++ [pt.nodes.length] } }
    | none => acc
  face.edges.foldl (processEdge parentTransform face.triangulation) acc

/-- `unordered_map::emplace` with the id-at-insertion convention: if the
key is present the map is unchanged and the existing entry's value is
returned, otherwise the new entry is appended and returned. -/
def emplaceEntry {α : Type} (m : List (Nat × α)) (k : Nat) (v : α) :
    List (Nat × α) × α :=
  match alookup m k with
  | some old => (m, old)
  | none => (m ++ [(k, v)], v)

/-- `emplace` on the tri-geometry map. -/
def emplaceTri (m : List (Nat × TriGeometryInfo)) (k : Nat)
    (v : TriGeometryInfo) : List (Nat × TriGeometryInfo) × TriGeometryInfo :=
  emplaceEntry m k v

/-- `emplace` on the line-geometry map. -/
def emplaceLine (m : List (Nat × LineGeometryInfo)) (k : Nat)
    (v : LineGeometryInfo) : List (Nat × LineGeometryInfo) × LineGeometryInfo :=
  emplaceEntry m k v

/-- `emplace` on the material map. -/
def emplaceMat (m : List (Nat × MaterialInfo)) (k : Nat)
    (v : MaterialInfo) : List (Nat × MaterialInfo) × MaterialInfo :=
  emplaceEntry m k v

/-- Lines 339–346: if the accumulated triangle geometry is non-empty
(non-empty positions AND non-empty indices), register it in the
tri-geometry map under the next dense id and return that id; otherwise
return `-1` with the map unchanged. -/
def registerTriGeometry (m : List (Nat × TriGeometryInfo)) (k : Nat)
    (g : TriGeometry) : Int × List (Nat × TriGeometryInfo) :=
  if g.positions ≠ [] ∧ g.indices ≠ [] then
    let res := emplaceTri m k ⟨m.length, g⟩
    ((res.2.id : Int), res.1)
  else (-1, m)

/-- Lines 348–355: if the accumulated line geometry is non-empty, register
it in the line-geometry map under the next dense id and return that id;
otherwise return `-1` with the map unchanged. -/
def registerLineGeometry (m : List (Nat × LineGeometryInfo)) (k : Nat)
    (g : LineGeometry) : Int × List (Nat × LineGeometryInfo) :=
  if g.positions ≠ [] then
    let res := emplaceLine m k ⟨m.length, g⟩
    ((res.2.id : Int), res.1)
  else (-1, m)

/-- `TriangulationContext::triangulateShape`: return the memoised indices
when the shape identity was already processed; otherwise run the
tessellation computation (counted by `tessellationCount`), fold the
per-face loop over the shape's faces, register any non-empty tri/line
geometry under the next dense id, and record the result in
`processedShapeMap`. -/
def triangulateShape (shape : Shape) (st : TContext) :
    ProcessedShapeInfo × TContext :=
  match alookup st.processedShapeMap shape.tshape with
  | some info => (info, st)
  | none =>
    let parentTransform := shape.location
    let acc0 : FaceAcc := ⟨⟨[], [], [], [], []⟩, ⟨[], []⟩, st.processedEdgeSet⟩
    let acc := shape.faces.foldl (processFace parentTransform) acc0
    let triRes := registerTriGeometry st.triGeometryMap shape.tshape acc.triData
    let lineRes := registerLineGeometry st.lineGeometryMap shape.tshape acc.lineData
    let info : ProcessedShapeInfo := ⟨triRes.1, lineRes.1⟩
    (info,
      { st with
        triGeometryMap := triRes.2,
        lineGeometryMap := lineRes.2,
        processedEdgeSet := acc.processedEdgeSet,
        processedShapeMap := st.processedShapeMap ++ [(shape.tshape, info)],
        tessellationCount := st.tessellationCount + 1 })

/-! ## `resolveShapeTree` (lines 365–450) -/

/-- A frame of the explicit work stack. -/
structure StackFrame where
  shape : Shape
  parentMeshIndex : Int
  parentWorldTransform : Trsf

/-- Shape-kind classification (the `switch` on `shape.ShapeType()`). -/
def classifyShape : ShapeKind → MeshShapeType
  | .compound => .compound
  | .compsolid => .compsolid
  | .solid => .solid
  | .shell => .shell
  | .edge => .edge
  | .other => .unknown

/-- Lines 403–423: look the shape's tree label up
(`shapeTool->Search`), read the display name from that label, resolve
reference indirections, and intern the resolved label's color in the
material map.  Returns the name, the material index (`-1` for none) and
the updated material map. -/
def resolveNameAndMaterial (doc : DocTree) (tshape : Nat)
    (materialMap : List (Nat × MaterialInfo)) :
    String × Int × List (Nat × MaterialInfo) :=
  match alookup doc.search tshape with
  | none => ("", -1, materialMap)
  | some shapeLabel =>
    let shapeName := getLabelName doc shapeLabel
    let resolvedLabel := resolveReferredShapeLabel doc shapeLabel
    match getLabelColor doc resolvedLabel with
    | none => (shapeName, -1, materialMap)
    | some color =>
      let res := emplaceMat materialMap resolvedLabel
        ⟨materialMap.length, color⟩
      (shapeName, (res.2.id : Int), res.1)

/-- One iteration of the `while (!stack.empty())` loop: pop a frame,
reserve the next mesh index, compute the relative transform, classify the
kind, resolve name/material, dispatch on the kind (pushing child frames
for compounds, triangulating solids/shells), and append the mesh node.
Returns the updated context and the frames pushed by this iteration in
top-of-stack-first order (children are pushed back-to-front onto the
vector stack, so the last child ends up on top). -/
def processFrame (doc : DocTree) (f : StackFrame) (st : TContext) :
    TContext × List StackFrame :=
  let shape := f.shape
  let meshIndex : Int := (st.meshes.length : Int)
  let shapeTransform := shape.location
  let relativeTransform := f.parentWorldTransform.inv.comp shapeTransform
  let matrixArray := relativeTransform.toMatrix4
  let shapeType := classifyShape shape.kind
  let res := resolveNameAndMaterial doc shape.tshape st.materialMap
  let shapeName := res.1
  let materialIndex := res.2.1
  let st := { st with materialMap := res.2.2 }
  let geom : Int × Int × TContext × List StackFrame :=
    match shape.kind with
    | .compound | .compsolid =>
      (-1, -1, st,
        (shape.children.map
          (fun c => StackFrame.mk c meshIndex shapeTransform)).reverse)
    | .solid | .shell =>
      let res := triangulateShape shape st
      (res.1.triGeometryIndex, res.1.lineGeometryIndex, res.2, [])
    | .edge | .other => (-1, -1, st, [])
  let st := geom.2.2.1
  ({ st with meshes := st.meshes ++
      [⟨shapeName, matrixArray, shapeType, geom.1, geom.2.1,
        materialIndex, f.parentMeshIndex⟩] },
    geom.2.2.2)

/-- The stack loop of `resolveShapeTree`, fuel-indexed (see the header
note): with fuel left and a non-empty stack, run one `processFrame`
iteration and continue with the pushed frames on top of the rest. -/
def runStack (doc : DocTree) : Nat → List StackFrame → TContext → TContext
  | 0, _, st => st
  | _ + 1, [], st => st
  | fuel + 1, f :: rest, st =>
      let res := processFrame doc f st
      runStack doc fuel (res.2 ++ rest) res.1

/-- `TriangulationContext::resolveShapeTree`: run the stack loop from a
single root frame (`{rootShape, -1, gp_Trsf()}`). -/
def resolveShapeTree (doc : DocTree) (fuel : Nat) (rootShape : Shape)
    (st : TContext) : TContext :=
  runStack doc fuel [⟨rootShape, -1, Trsf.id⟩] st

/-- Drain an identity-keyed map into a dense array ordered by assigned id
(`std::vector<β> out(m.size()); for (e : m) out[e.id] = e.geometry;`):
position `i` receives the value of the entry with id `i`; a position no
entry claims keeps its default-constructed value. -/
def densify {α β : Type} [Inhabited β] (idOf : α → Nat) (valOf : α → β)
    (m : List (Nat × α)) : List β :=
  (List.range m.length).map (fun i =>
    match m.find? (fun e => idOf e.2 == i) with
    | some e => valOf e.2
    | none => default)

/-- `TriangulationContext::compute`: flatten every free root shape through
`resolveShapeTree` (one shared context, so geometry dedup spans all
roots), clear the transient dedup state, drain the maps into dense
arrays, and return the model.  The second component is the final
tessellation-work counter (instrumentation, see `TContext`). -/
def TriangulationContext.compute (doc : DocTree) (fuel : Nat) :
    TriangulatedModel × Nat :=
  let st := doc.roots.foldl
    (fun st root => resolveShapeTree doc fuel root st) TContext.init
  (⟨densify TriGeometryInfo.id TriGeometryInfo.geometry st.triGeometryMap,
    densify LineGeometryInfo.id LineGeometryInfo.geometry st.lineGeometryMap,
    densify MaterialInfo.id MaterialInfo.material st.materialMap,
    st.meshes⟩,
   st.tessellationCount)

/-! ## `ModelContext::computeTriangulation` (`model_context.cpp`
lines 151–161) -/

/-- The triangulation-relevant state of a `ModelContext`: the document and
the `std::optional<TriangulatedModel>` cache. -/
structure ModelContext where
  doc : DocTree
  triangulatedModel : Option TriangulatedModel

/-- `ModelContext::computeTriangulation`: if the cached model is present,
return immediately; otherwise compute and cache it.  The second component
counts the tessellation work performed by this call (0 on the cached
path). -/
def ModelContext.computeTriangulation (mc : ModelContext) (fuel : Nat) :
    ModelContext × Nat :=
  match mc.triangulatedModel with
  | some _ => (mc, 0)
  | none =>
    let res := TriangulationContext.compute mc.doc fuel
    ({ mc with triangulatedModel := some res.1 }, res.2)

/-! ## `AsyncTask` (`async_task.hpp`), at the instantiation
`TriangulationAsyncTask = AsyncTask<bool>` used by the binding layer -/

/-- The state of an `AsyncTask<bool>`: the completion flag and the
`std::optional<bool>` result slot. -/
structure AsyncTask where
  completed : Bool
  value : Option Bool
deriving DecidableEq, Repr

/-- A default-constructed task. -/
def AsyncTask.init : AsyncTask := ⟨false, none⟩

/-- `AsyncTask::isCompleted`. -/
def AsyncTask.isCompleted (t : AsyncTask) : Bool := t.completed

/-- `AsyncTask::takeValue`: `return std::move(value);`.  Moving from the
`std::optional<bool>` member copies the contained `bool` into the return
value and leaves the member *engaged* with its (for `bool`, unchanged)
moved-from value — the member is never reset, so the task state is
unchanged. -/
def AsyncTask.takeValue (t : AsyncTask) : Option Bool × AsyncTask :=
  (t.value, t)

/-- `AsyncTask::setValue`: store the value and set the completion flag. -/
def AsyncTask.setValue (t : AsyncTask) (newValue : Option Bool) : AsyncTask :=
  { t with completed := true, value := newValue }

/-! ## Concrete fixtures used by witnesses and counterexamples -/

/-- A translation by `(dx, 0, 0)`. -/
def translateX (dx : ℚ) : Trsf := ⟨Mat3.id, ⟨dx, 0, 0⟩⟩

/-- A 3-node, 1-triangle tessellation of a unit right triangle, with
upward normals. -/
def unitPT : PolyTriangulation :=
  ⟨[⟨0, 0, 0⟩, ⟨1, 0, 0⟩, ⟨0, 1, 0⟩],
   [⟨0, 0, 1⟩, ⟨0, 0, 1⟩, ⟨0, 0, 1⟩],
   [(0, 0), (1, 0), (0, 1)],
   [(1, 2, 3)]⟩

/-- A forward-oriented face carrying `unitPT`, no boundary edges. -/
def faceFwd : Face := ⟨some unitPT, Trsf.id, false, (0, 1, 0, 1), []⟩

/-- The same face with reversed orientation. -/
def faceRev : Face := ⟨some unitPT, Trsf.id, true, (0, 1, 0, 1), []⟩

/-- A face whose UV range is degenerate in `u` (zero width). -/
def faceDegenerateUV : Face := ⟨some unitPT, Trsf.id, false, (0, 0, 0, 1), []⟩

/-- A single reversed-face solid under the identity (non-mirroring)
transform. -/
def solidRev : Shape := .mk 5 .solid Trsf.id [] [faceRev]

/-- Document for the dedup scenario: one root compound with two instances
of the same solid identity (`tshape = 5`) at different placements. -/
def docDedup : DocTree :=
  ⟨[], [],
   [.mk 1 .compound Trsf.id
     [.mk 5 .solid (translateX 1) [] [faceFwd],
      .mk 5 .solid (translateX 2) [] [faceFwd]] []]⟩

/-- A boundary edge with identity `7` and a 2-node polygon on the owning
face's triangulation. -/
def sharedEdge : EdgeData := ⟨7, Trsf.id, some [1, 2], []⟩

/-- Document for the shared-edge scenario: two distinct solids
(`tshape` 2 and 3) whose single faces both contain the edge identity 7. -/
def docSharedEdge : DocTree :=
  ⟨[], [],
   [.mk 1 .compound Trsf.id
     [.mk 2 .solid Trsf.id [] [⟨some unitPT, Trsf.id, false, (0, 1, 0, 1), [sharedEdge]⟩],
      .mk 3 .solid Trsf.id [] [⟨some unitPT, Trsf.id, false, (0, 1, 0, 1), [sharedEdge]⟩]] []]⟩

/-- Document for the reference-resolution scenario: one solid whose tree
label 0 is a reference named "inst" pointing at label 1 named "master",
which carries the only color. -/
def docRef : DocTree :=
  ⟨[⟨true, 1, some "inst", none, none, none⟩,
    ⟨false, 0, some "master", some ⟨1, 0, 0⟩, none, none⟩],
   [(5, 0)],
   [.mk 5 .solid Trsf.id [] []]⟩

/-! ## Specification predicates -/

/-- The label `l` reaches the non-reference label `r` after following `n`
reference indirections. -/
inductive ReachesNonRef (doc : DocTree) : Nat → Nat → Nat → Prop
  | base (l : Nat) : (doc.getLabel l).isReference = false →
      ReachesNonRef doc l l 0
  | step (l r n : Nat) : (doc.getLabel l).isReference = true →
      ReachesNonRef doc (doc.getLabel l).referred r n →
      ReachesNonRef doc l r (n + 1)

/-- Well-formedness of a shape: every attached face triangulation is
well-formed tessellator output, recursively in the children. -/
inductive Shape.WF : Shape → Prop
  | mk (t : Nat) (k : ShapeKind) (l : Trsf) (cs : List Shape)
      (fs : List Face) :
      (∀ f ∈ fs, ∀ pt, f.triangulation = some pt → pt.WF) →
      (∀ c ∈ cs, Shape.WF c) →
      Shape.WF (.mk t k l cs fs)

/-- The internal invariant of a `TriGeometry`: equal position/normal
buffer lengths, position and index buffers of whole triangles/vertices,
and every index below the vertex count. -/
def TriInv (g : TriGeometry) : Prop :=
  g.positions.length = g.normals.length ∧
  g.positions.length % 3 = 0 ∧
  g.indices.length % 3 = 0 ∧
  ∀ i ∈ g.indices, i < g.positions.length / 3

/-- An `Int` index is either the absent marker `-1` or a valid position
below `n`. -/
def IdxOk (idx : Int) (n : Nat) : Prop :=
  idx = -1 ∨ (0 ≤ idx ∧ idx < (n : Int))

/-- Geometry/material index bounds for one `ProcessedShapeInfo` relative
to a context's maps. -/
def InfoBounds (st : TContext) (info : ProcessedShapeInfo) : Prop :=
  IdxOk info.triGeometryIndex st.triGeometryMap.length ∧
  IdxOk info.lineGeometryIndex st.lineGeometryMap.length

/-- The context-wide invariant maintained by the triangulation pass:
identity-map entries carry in-range ids (and well-formed geometry for the
tri map), memoised shape infos are in range, and every already-emitted
mesh node's indices are in range of the current maps. -/
def StInv (st : TContext) : Prop :=
  (∀ e ∈ st.triGeometryMap, e.2.id < st.triGeometryMap.length ∧ TriInv e.2.geometry) ∧
  (∀ e ∈ st.lineGeometryMap, e.2.id < st.lineGeometryMap.length) ∧
  (∀ e ∈ st.materialMap, e.2.id < st.materialMap.length) ∧
  (∀ e ∈ st.processedShapeMap, InfoBounds st e.2) ∧
  (∀ m ∈ st.meshes,
    IdxOk m.triGeometryIndex st.triGeometryMap.length ∧
    IdxOk m.lineGeometryIndex st.lineGeometryMap.length ∧
    IdxOk m.materialIndex st.materialMap.length)

/-- Parent back-references of the already-emitted mesh prefix: each node's
parent is absent or strictly earlier in the list. -/
def MeshParentInv (meshes : List Mesh) : Prop :=
  ∀ i, i < meshes.length →
    (meshes.getD i default).parentMeshIndex = -1 ∨
    (0 ≤ (meshes.getD i default).parentMeshIndex ∧
      (meshes.getD i default).parentMeshIndex < (i : Int))

/-- Pending stack frames reference only already-emitted parents. -/
def StackParentInv (meshes : List Mesh) (stack : List StackFrame) : Prop :=
  ∀ fr ∈ stack, fr.parentMeshIndex = -1 ∨
    (0 ≤ fr.parentMeshIndex ∧ fr.parentMeshIndex < (meshes.length : Int))

/-! ## Basic lemmas about the embedding -/

theorem Mat3.mulVec_neg (m : Mat3) (v : Vec3) :
    m.mulVec v.neg = (m.mulVec v).neg := by
  simp only [Mat3.mulVec, Vec3.neg, Vec3.mk.injEq]
  refine ⟨by ring, by ring, by ring⟩

theorem Trsf.applyDir_neg (t : Trsf) (v : Vec3) :
    t.applyDir v.neg = (t.applyDir v).neg :=
  Mat3.mulVec_neg t.linear v

theorem alookup_nil {α : Type} (k : Nat) : alookup ([] : List (Nat × α)) k = none := rfl

theorem alookup_cons {α : Type} (e : Nat × α) (m : List (Nat × α)) (k : Nat) :
    alookup (e :: m) k = if e.1 == k then some e.2 else alookup m k := by
  unfold alookup
  rcases he : (e.1 == k) with _ | _ <;> simp [List.find?_cons, he]

theorem alookup_append_of_none {α : Type} (m : List (Nat × α)) (k : Nat)
    (v : α) (h : alookup m k = none) : alookup (m ++ [(k, v)]) k = some v := by
  induction m with
  | nil => simp [alookup]
  | cons e m ih =>
    rw [List.cons_append, alookup_cons]
    rw [alookup_cons] at h
    rcases he : (e.1 == k) with _ | _
    · simp only [he, if_false] at h ⊢
      exact ih h
    · simp [he] at h

theorem alookup_mem {α : Type} {m : List (Nat × α)} {k : Nat} {v : α}
    (h : alookup m k = some v) : ∃ e ∈ m, e.2 = v := by
  unfold alookup at h
  rcases hf : m.find? (fun e => e.1 == k) with _ | e
  · simp [hf] at h
  · simp only [hf, Option.map_some'] at h
    exact ⟨e, List.mem_of_find?_eq_some hf, by injection h⟩

theorem sampleEdgeFallback_triData (rel : Trsf) (edge : EdgeData)
    (acc : FaceAcc) : (sampleEdgeFallback rel edge acc).triData = acc.triData := by
  simp only [sampleEdgeFallback]
  split <;> rfl

theorem processEdge_triData (p : Trsf) (ft : Option PolyTriangulation)
    (acc : FaceAcc) (e : EdgeData) :
    (processEdge p ft acc e).triData = acc.triData := by
  unfold processEdge
  split
  · rfl
  · split
    · split <;> rfl
    · exact sampleEdgeFallback_triData ..
    · exact sampleEdgeFallback_triData ..

theorem foldl_processEdge_triData (p : Trsf) (ft : Option PolyTriangulation)
    (es : List EdgeData) (acc : FaceAcc) :
    (es.foldl (processEdge p ft) acc).triData = acc.triData := by
  induction es generalizing acc with
  | nil => rfl
  | cons e es ih => rw [List.foldl_cons, ih, processEdge_triData]

theorem sampleEdgeFallback_set (rel : Trsf) (edge : EdgeData) (acc : FaceAcc) :
    (sampleEdgeFallback rel edge acc).processedEdgeSet = acc.processedEdgeSet := by
  simp only [sampleEdgeFallback]
  split <;> rfl

theorem processEdge_set (p : Trsf) (ft : Option PolyTriangulation)
    (acc : FaceAcc) (e : EdgeData) :
    (processEdge p ft acc e).processedEdgeSet = acc.processedEdgeSet ∨
    (processEdge p ft acc e).processedEdgeSet =
      acc.processedEdgeSet ++ [e.tshape] := by
  unfold processEdge
  split
  · exact Or.inl rfl
  · right
    split
    · split <;> rfl
    · rw [sampleEdgeFallback_set]
    · rw [sampleEdgeFallback_set]

theorem processEdge_set_mono (p : Trsf) (ft : Option PolyTriangulation)
    (acc : FaceAcc) (e : EdgeData) (x : Nat)
    (h : x ∈ acc.processedEdgeSet) :
    x ∈ (processEdge p ft acc e).processedEdgeSet := by
  rcases processEdge_set p ft acc e with heq | heq <;> rw [heq]
  · exact h
  · exact List.mem_append_left _ h

theorem foldl_processEdge_set_mono (p : Trsf) (ft : Option PolyTriangulation)
    (es : List EdgeData) (acc : FaceAcc) (x : Nat)
    (h : x ∈ acc.processedEdgeSet) :
    x ∈ (es.foldl (processEdge p ft) acc).processedEdgeSet := by
  induction es generalizing acc with
  | nil => exact h
  | cons e es ih =>
    rw [List.foldl_cons]
    exact ih _ (processEdge_set_mono p ft acc e x h)

theorem processFace_set_mono (p : Trsf) (acc : FaceAcc) (face : Face)
    (x : Nat) (h : x ∈ acc.processedEdgeSet) :
    x ∈ (processFace p acc face).processedEdgeSet := by
  unfold processFace
  exact foldl_processEdge_set_mono _ _ _ _ _ (by
    split
    · exact h
    · exact h)

theorem foldl_processFace_set_mono (p : Trsf) (faces : List Face)
    (acc : FaceAcc) (x : Nat) (h : x ∈ acc.processedEdgeSet) :
    x ∈ (faces.foldl (processFace p) acc).processedEdgeSet := by
  induction faces generalizing acc with
  | nil => exact h
  | cons f fs ih =>
    rw [List.foldl_cons]
    exact ih _ (processFace_set_mono p acc f x h)

theorem processFace_triData_none (p : Trsf) (acc : FaceAcc) (face : Face)
    (h : face.triangulation = none) :
    (processFace p acc face).triData = acc.triData := by
  unfold processFace
  rw [foldl_processEdge_triData]
  simp [h]

theorem processFace_triData_some (p : Trsf) (acc : FaceAcc) (face : Face)
    (pt : PolyTriangulation) (umin umax vmin vmax : ℚ)
    (h : face.triangulation = some pt)
    (hb : face.uvBounds = (umin, umax, vmin, vmax)) :
    (processFace p acc face).triData =
      { positions := acc.triData.positions ++
          pt.nodes.flatMap (fun n => ((p.inv.comp face.location).applyPnt n).coords),
        normals := acc.triData.normals ++
          pt.normals.flatMap (fun n =>
            if Bool.xor face.reversed
                (decide ((p.inv.comp face.location).linear.det < 0)) then
              ((p.inv.comp face.location).applyDir n.neg).coords
            else ((p.inv.comp face.location).applyDir n).coords),
        uvs := acc.triData.uvs ++
          pt.uvNodes.flatMap (fun q =>
            [uvNormalize umin umax q.1, uvNormalize vmin vmax q.2]),
        indices := acc.triData.indices ++
          pt.triangles.flatMap (fun t =>
            if face.reversed then
              [t.1 - 1 + acc.triData.positions.length / 3,
                t.2.1 - 1 + acc.triData.positions.length / 3,
                t.2.2 - 1 + acc.triData.positions.length / 3]
            else
              [t.1 - 1 + acc.triData.positions.length / 3,
                t.2.2 - 1 + acc.triData.positions.length / 3,
                t.2.1 - 1 + acc.triData.positions.length / 3]),
        submeshIndices := acc.triData.submeshIndices ++ [pt.nodes.length] } := by
  unfold processFace
  rw [foldl_processEdge_triData]
  simp [h, hb]

/-! ## Claim C2 -/

/-- C2: for every face with attached triangulation, each emitted
per-vertex normal is the relative-transformed tessellator normal,
sign-flipped exactly when `(face reversed) XOR (determinant of the
relative transform's linear part is negative)`, and the same flip decision
is applied uniformly to the whole face's normal set. -/
theorem C2_normal_flip_xor (p : Trsf) (acc : FaceAcc) (face : Face)
    (pt : PolyTriangulation) (h : face.triangulation = some pt) :
    (processFace p acc face).triData.normals =
      acc.triData.normals ++
        pt.normals.flatMap (fun n =>
          (if Bool.xor face.reversed
              (decide ((p.inv.comp face.location).linear.det < 0)) then
            ((p.inv.comp face.location).applyDir n).neg
          else (p.inv.comp face.location).applyDir n).coords) := by
  rcases hb : face.uvBounds with ⟨umin, umax, vmin, vmax⟩
  have hfun : (fun n : Vec3 =>
      if Bool.xor face.reversed
          (decide ((p.inv.comp face.location).linear.det < 0)) then
        ((p.inv.comp face.location).applyDir n.neg).coords
      else ((p.inv.comp face.location).applyDir n).coords) =
    (fun n : Vec3 =>
      (if Bool.xor face.reversed
          (decide ((p.inv.comp face.location).linear.det < 0)) then
        ((p.inv.comp face.location).applyDir n).neg
      else (p.inv.comp face.location).applyDir n).coords) := by
    funext n
    rcases hx : Bool.xor face.reversed
        (decide ((p.inv.comp face.location).linear.det < 0)) with _ | _ <;>
      simp [hx, Trsf.applyDir_neg]
  rw [processFace_triData_some p acc face pt umin umax vmin vmax h hb]
  simp only [hfun]

/-- C2, witness: the concrete reversed face under the identity transform
has all normals emitted with the sign flip. -/
theorem C2_normal_flip_xor_witness :
    (processFace Trsf.id ⟨⟨[], [], [], [], []⟩, ⟨[], []⟩, []⟩ faceRev).triData.normals =
      [] ++ unitPT.normals.flatMap (fun n =>
        (if Bool.xor faceRev.reversed
            (decide ((Trsf.id.inv.comp faceRev.location).linear.det < 0)) then
          ((Trsf.id.inv.comp faceRev.location).applyDir n).neg
        else (Trsf.id.inv.comp faceRev.location).applyDir n).coords) :=
  C2_normal_flip_xor Trsf.id ⟨⟨[], [], [], [], []⟩, ⟨[], []⟩, []⟩ faceRev unitPT rfl

/-! ## Claim C1 -/

/-- C1, counterexample: for a concrete single reversed face (identity,
non-mirroring transform) the emitted triangle indices are in the
tessellator's native order `0,1,2`, not the swapped order `0,2,1` that the
claim asserts for a reversed face. -/
theorem C1_winding_counterexample :
    ((triangulateShape solidRev TContext.init).2.triGeometryMap.map
      (fun e => e.2.geometry.indices)) = [[0, 1, 2]] ∧
    ((triangulateShape solidRev TContext.init).2.triGeometryMap.map
      (fun e => e.2.geometry.indices)) ≠ [[0, 2, 1]] := by
  constructor
  · decide
  · decide

/-- C1 (amended): for every face with attached triangulation the winding
handling is the opposite of the claim's direction — a REVERSED face emits
triangle indices in the tessellator's native order `(n1, n2, n3)`, while a
non-reversed face emits them with the second and third index swapped
`(n1, n3, n2)`; under a non-mirroring relative transform (positive
determinant) the normals are sign-flipped exactly for the reversed face,
so each face receives exactly one correction relative to native
tessellator output (normal flip for reversed faces, winding swap for
forward faces), never both. -/
theorem C1_winding_one_correction (p : Trsf) (acc : FaceAcc) (face : Face)
    (pt : PolyTriangulation) (h : face.triangulation = some pt)
    (hdet : 0 < (p.inv.comp face.location).linear.det) :
    ((processFace p acc face).triData.indices =
      acc.triData.indices ++
        pt.triangles.flatMap (fun t =>
          if face.reversed then
            [t.1 - 1 + acc.triData.positions.length / 3,
              t.2.1 - 1 + acc.triData.positions.length / 3,
              t.2.2 - 1 + acc.triData.positions.length / 3]
          else
            [t.1 - 1 + acc.triData.positions.length / 3,
              t.2.2 - 1 + acc.triData.positions.length / 3,
              t.2.1 - 1 + acc.triData.positions.length / 3])) ∧
    ((processFace p acc face).triData.normals =
      acc.triData.normals ++
        pt.normals.flatMap (fun n =>
          (if face.reversed then ((p.inv.comp face.location).applyDir n).neg
            else (p.inv.comp face.location).applyDir n).coords)) := by
  rcases hb : face.uvBounds with ⟨umin, umax, vmin, vmax⟩
  have hd : decide ((p.inv.comp face.location).linear.det < 0) = false := by
    simp [not_lt.mpr (le_of_lt hdet)]
  have hfun : (fun n : Vec3 =>
      if Bool.xor face.reversed
          (decide ((p.inv.comp face.location).linear.det < 0)) then
        ((p.inv.comp face.location).applyDir n.neg).coords
      else ((p.inv.comp face.location).applyDir n).coords) =
    (fun n : Vec3 =>
      (if face.reversed then ((p.inv.comp face.location).applyDir n).neg
        else (p.inv.comp face.location).applyDir n).coords) := by
    funext n
    rcases hr : face.reversed with _ | _ <;> simp [hr, hd, Trsf.applyDir_neg]
  rw [processFace_triData_some p acc face pt umin umax vmin vmax h hb]
  exact ⟨rfl, by simp only [hfun]⟩

/-- C1, witness: the amended statement instantiated at the concrete
reversed face under the identity transform. -/
theorem C1_winding_one_correction_witness :
    ((processFace Trsf.id ⟨⟨[], [], [], [], []⟩, ⟨[], []⟩, []⟩ faceRev).triData.indices =
      [] ++ unitPT.triangles.flatMap (fun t =>
        if faceRev.reversed then [t.1 - 1 + 0, t.2.1 - 1 + 0, t.2.2 - 1 + 0]
        else [t.1 - 1 + 0, t.2.2 - 1 + 0, t.2.1 - 1 + 0])) ∧
    ((processFace Trsf.id ⟨⟨[], [], [], [], []⟩, ⟨[], []⟩, []⟩ faceRev).triData.normals =
      [] ++ unitPT.normals.flatMap (fun n =>
        (if faceRev.reversed then ((Trsf.id.inv.comp faceRev.location).applyDir n).neg
          else (Trsf.id.inv.comp faceRev.location).applyDir n).coords)) :=
  C1_winding_one_correction Trsf.id ⟨⟨[], [], [], [], []⟩, ⟨[], []⟩, []⟩ faceRev unitPT rfl
    (by norm_num [faceRev, Trsf.inv, Trsf.comp, Trsf.id, Mat3.inv, Mat3.mul, Mat3.id,
      Mat3.det])

/-! ## Claim C7 -/

/-- C7, counterexample: the UV division is not guarded — for a concrete
face whose `u` range degenerates to a point, the emitted `u` entries are
non-finite (`none`), i.e. there is no defined fallback value. -/
theorem C7_uv_counterexample :
    (processFace Trsf.id ⟨⟨[], [], [], [], []⟩, ⟨[], []⟩, []⟩ faceDegenerateUV).triData.uvs =
      [none, some 0, none, some 0, none, some 1] ∧
    none ∈ (processFace Trsf.id ⟨⟨[], [], [], [], []⟩, ⟨[], []⟩, []⟩
      faceDegenerateUV).triData.uvs := by
  have h : (processFace Trsf.id ⟨⟨[], [], [], [], []⟩, ⟨[], []⟩, []⟩
      faceDegenerateUV).triData.uvs = [none, some 0, none, some 0, none, some 1] := by
    norm_num [processFace, processEdge, faceDegenerateUV, unitPT, uvNormalize, Trsf.id,
      Trsf.inv, Trsf.comp, Mat3.id, Mat3.inv, Mat3.mul, Mat3.mulVec, Mat3.det, Vec3.add,
      Vec3.neg, Vec3.coords, Trsf.applyPnt, Trsf.applyDir]
  exact ⟨h, by rw [h]; simp⟩

/-- C7 (amended): for a face with a non-degenerate UV parameter domain
whose tessellator UV nodes lie inside the face's UV bounds, every emitted
UV scalar is a finite value in `[0, 1]`; for a face whose UV range
degenerates to a point the division is unguarded, and the affected
emitted UV scalars are the non-finite result of a division by zero
(`none`) rather than any defined fallback value (no crash occurs). -/
theorem C7_uv_in_unit_range (p : Trsf) (acc : FaceAcc) (face : Face)
    (pt : PolyTriangulation) (umin umax vmin vmax : ℚ)
    (h : face.triangulation = some pt)
    (hb : face.uvBounds = (umin, umax, vmin, vmax))
    (hu : umin < umax) (hv : vmin < vmax)
    (hin : ∀ q ∈ pt.uvNodes, umin ≤ q.1 ∧ q.1 ≤ umax ∧ vmin ≤ q.2 ∧ q.2 ≤ vmax) :
    ∀ o ∈ (processFace p acc face).triData.uvs,
      o ∈ acc.triData.uvs ∨ ∃ c : ℚ, o = some c ∧ 0 ≤ c ∧ c ≤ 1 := by
  rw [processFace_triData_some p acc face pt umin umax vmin vmax h hb]
  intro o ho
  rcases List.mem_append.mp ho with hl | hr
  · exact Or.inl hl
  · right
    rcases List.mem_flatMap.mp hr with ⟨q, hq, hmem⟩
    obtain ⟨h1, h2, h3, h4⟩ := hin q hq
    have hdu : umax - umin ≠ 0 := sub_ne_zero.mpr (ne_of_gt hu)
    have hdv : vmax - vmin ≠ 0 := sub_ne_zero.mpr (ne_of_gt hv)
    simp only [List.mem_cons, List.not_mem_nil, or_false] at hmem
    rcases hmem with hmu | hmv
    · refine ⟨(q.1 - umin) / (umax - umin), ?_, ?_, ?_⟩
      · rw [hmu]; simp [uvNormalize, hdu]
      · exact div_nonneg (by linarith) (by linarith)
      · rw [div_le_one (by linarith)]
        linarith
    · refine ⟨(q.2 - vmin) / (vmax - vmin), ?_, ?_, ?_⟩
      · rw [hmv]; simp [uvNormalize, hdv]
      · exact div_nonneg (by linarith) (by linarith)
      · rw [div_le_one (by linarith)]
        linarith

/-- C7, witness: the amended statement instantiated at the concrete
forward face with unit UV bounds and at its first emitted UV scalar. -/
theorem C7_uv_in_unit_range_witness :
    (some 0 : Option ℚ) ∈ (processFace Trsf.id
      ⟨⟨[], [], [], [], []⟩, ⟨[], []⟩, []⟩ faceFwd).triData.uvs ∧
    ((some 0 : Option ℚ) ∈ ([] : List (Option ℚ)) ∨
      ∃ c : ℚ, (some 0 : Option ℚ) = some c ∧ 0 ≤ c ∧ c ≤ 1) := by
  have hmem : (some 0 : Option ℚ) ∈ (processFace Trsf.id
      ⟨⟨[], [], [], [], []⟩, ⟨[], []⟩, []⟩ faceFwd).triData.uvs := by
    have huvs : (processFace Trsf.id
        ⟨⟨[], [], [], [], []⟩, ⟨[], []⟩, []⟩ faceFwd).triData.uvs =
        [some 0, some 0, some 1, some 0, some 0, some 1] := by
      norm_num [processFace, processEdge, faceFwd, unitPT, uvNormalize, Trsf.id,
        Trsf.inv, Trsf.comp, Mat3.id, Mat3.inv, Mat3.mul, Mat3.mulVec, Mat3.det,
        Vec3.add, Vec3.neg, Vec3.coords, Trsf.applyPnt, Trsf.applyDir]
    rw [huvs]
    simp
  exact ⟨hmem,
    C7_uv_in_unit_range Trsf.id ⟨⟨[], [], [], [], []⟩, ⟨[], []⟩, []⟩ faceFwd unitPT
      0 1 0 1 rfl rfl (by norm_num) (by norm_num)
      (by
        intro q hq
        simp only [unitPT, List.mem_cons, List.not_mem_nil, or_false] at hq
        rcases hq with h | h | h <;> subst h <;> norm_num)
      (some 0) hmem⟩

/-! ## Claim C4 -/

/-- C4: `computeTriangulation` is idempotent — after a first call has
produced and cached a model, a second call on the resulting context is a
no-op: it returns the context unchanged and performs zero additional
tessellation work, so both calls expose the identical cached model. -/
theorem C4_computeTriangulation_idempotent (mc : ModelContext) (fuel : Nat) :
    ((mc.computeTriangulation fuel).1.computeTriangulation fuel) =
      ((mc.computeTriangulation fuel).1, 0) := by
  unfold ModelContext.computeTriangulation
  rcases h : mc.triangulatedModel with _ | m <;> simp [h]

/-! ## Claim C8 -/

/-- C8: `takeValue` is NOT a destructive one-shot read — `return
std::move(value)` never disengages the member optional, so after
`setValue` has stored a result, the first `takeValue` returns it AND every
subsequent `takeValue` returns the same engaged value again instead of
"absent".  Evaluated at the failing input: a task completed with value
`true`, read twice. -/
theorem C8_takeValue_not_destructive :
    ((AsyncTask.init.setValue (some true)).takeValue).1 = some true ∧
    (((AsyncTask.init.setValue (some true)).takeValue).2.takeValue).1 = some true ∧
    (((AsyncTask.init.setValue (some true)).takeValue).2.takeValue).1 ≠ none := by
  refine ⟨rfl, rfl, by decide⟩

/-! ## Claim C6 -/

theorem resolveReferredAux_reaches (doc : DocTree) (l r n : Nat)
    (hreach : ReachesNonRef doc l r n) :
    ∀ fuel, n ≤ fuel → resolveReferredAux doc fuel l = r := by
  induction hreach with
  | base l hl =>
    intro fuel _
    cases fuel with
    | zero => rfl
    | succ f => simp [resolveReferredAux, hl]
  | step l r n hl _ ih =>
    intro fuel hle
    cases fuel with
    | zero => omega
    | succ f =>
      simp only [resolveReferredAux, hl, if_true]
      exact ih f (by omega)

/-- C6, counterexample: for a concrete document whose solid's tree label
is a reference named "inst" pointing at a non-reference label named
"master" (which carries the only color), the emitted mesh node's
display name is "inst" — the ORIGINAL label's name, not the resolved
node's — while the material does come from the resolved label; so the
resolved node is not the authority for the name lookup. -/
theorem C6_name_counterexample :
    ((TriangulationContext.compute docRef 10).1.meshes.getD 0 default).name = "inst" ∧
    "inst" ≠ "master" ∧
    (getLabelName docRef (resolveReferredShapeLabel docRef 0)) = "master" ∧
    (TriangulationContext.compute docRef 10).1.materials = [⟨1, 0, 0⟩] := by
  refine ⟨by decide, by decide, by decide, by decide⟩

/-- C6 (amended): when a scene node's tree label is marked as a reference,
the reference chain is followed (until a non-reference label is reached,
for any chain not longer than the label table) and the RESOLVED label is
the authority for the color/material lookup; the display name, however,
is read from the ORIGINAL tree label, not from the resolved one. -/
theorem C6_resolved_label_authority :
    (∀ (doc : DocTree) (l r n : Nat), ReachesNonRef doc l r n →
      n ≤ doc.labels.length → resolveReferredShapeLabel doc l = r) ∧
    (∀ (doc : DocTree) (tsh : Nat) (m : List (Nat × MaterialInfo)) (l : Nat),
      alookup doc.search tsh = some l →
      resolveNameAndMaterial doc tsh m =
        (getLabelName doc l,
          match getLabelColor doc (resolveReferredShapeLabel doc l) with
          | none => (-1, m)
          | some c =>
            (((emplaceMat m (resolveReferredShapeLabel doc l)
                ⟨m.length, c⟩).2.id : Int),
              (emplaceMat m (resolveReferredShapeLabel doc l) ⟨m.length, c⟩).1))) := by
  constructor
  · intro doc l r n hreach hle
    exact resolveReferredAux_reaches doc l r n hreach doc.labels.length hle
  · intro doc tsh m l hsearch
    unfold resolveNameAndMaterial
    rw [hsearch]
    rcases hc : getLabelColor doc (resolveReferredShapeLabel doc l) with _ | c <;>
      simp [hc]

/-- C6, witness: the amended statement instantiated at the concrete
reference chain of `docRef` (label 0 refers to label 1) and at its
search table. -/
theorem C6_resolved_label_authority_witness :
    resolveReferredShapeLabel docRef 0 = 1 ∧
    resolveNameAndMaterial docRef 5 [] =
      ("inst",
        match getLabelColor docRef (resolveReferredShapeLabel docRef 0) with
        | none => (-1, [])
        | some c =>
          (((emplaceMat [] (resolveReferredShapeLabel docRef 0) ⟨0, c⟩).2.id : Int),
            (emplaceMat [] (resolveReferredShapeLabel docRef 0) ⟨0, c⟩).1)) := by
  constructor
  · exact C6_resolved_label_authority.1 docRef 0 1 1
      (ReachesNonRef.step 0 1 0 (by decide)
        (ReachesNonRef.base 1 (by decide))) (by decide)
  · have h := C6_resolved_label_authority.2 docRef 5 [] 0 (by decide)
    rw [h]
    rfl

/-! ## Claim C3 -/

/-- C3: tessellation is memoised by shape identity — a repeat visit of an
identity already in `processedShapeMap` returns the previously assigned
indices with the context (including the tessellation-work counter)
unchanged; a first visit runs the tessellation exactly once and registers
the identity; and for the concrete two-instance document, one shared
`TriGeometry` entry is referenced by two distinct mesh nodes carrying two
different relative transforms, with exactly one tessellation run. -/
theorem C3_dedup_single_tessellation :
    (∀ (shape : Shape) (st : TContext) (info : ProcessedShapeInfo),
      alookup st.processedShapeMap shape.tshape = some info →
      triangulateShape shape st = (info, st)) ∧
    (∀ (shape : Shape) (st : TContext),
      alookup st.processedShapeMap shape.tshape = none →
      (triangulateShape shape st).2.tessellationCount =
        st.tessellationCount + 1 ∧
      alookup (triangulateShape shape st).2.processedShapeMap shape.tshape =
        some (triangulateShape shape st).1) ∧
    ((TriangulationContext.compute docDedup 10).1.tris.length = 1 ∧
      (TriangulationContext.compute docDedup 10).2 = 1 ∧
      (TriangulationContext.compute docDedup 10).1.meshes.length = 3 ∧
      ((TriangulationContext.compute docDedup 10).1.meshes.getD 1 default).triGeometryIndex = 0 ∧
      ((TriangulationContext.compute docDedup 10).1.meshes.getD 2 default).triGeometryIndex = 0 ∧
      ((TriangulationContext.compute docDedup 10).1.meshes.getD 1 default).transform ≠
        ((TriangulationContext.compute docDedup 10).1.meshes.getD 2 default).transform) := by
  refine ⟨?_, ?_, by decide, by decide, by decide, by decide, by decide, ?_⟩
  · intro shape st info h
    simp [triangulateShape, h]
  · intro shape st h
    constructor
    · simp [triangulateShape, h]
    · simp only [triangulateShape, h]
      exact alookup_append_of_none _ _ _ h
  · norm_num [TriangulationContext.compute, resolveShapeTree, runStack, processFrame,
      processEdge, processFace, triangulateShape, resolveNameAndMaterial, alookup,
      TContext.init, docDedup, faceFwd, unitPT, translateX, Trsf.id, Trsf.inv, Trsf.comp,
      Trsf.toMatrix4, Trsf.applyPnt, Mat3.id, Mat3.inv, Mat3.mul, Mat3.mulVec, Mat3.det,
      Vec3.add, Vec3.neg, Vec3.coords, Shape.kind, Shape.location, Shape.children,
      Shape.faces, Shape.tshape, classifyShape, getLabelName, getLabelColor,
      resolveReferredShapeLabel, resolveReferredAux, DocTree.getLabel, emplaceTri,
      emplaceLine, emplaceMat, densify, uvNormalize, Trsf.applyDir]

/-- C3, witness: the memoisation statements instantiated concretely — a
repeat visit of identity 5 returns the stored indices with the context
unchanged, and a first visit from the empty context registers the
identity and bumps the tessellation counter to one. -/
theorem C3_dedup_single_tessellation_witness :
    triangulateShape solidRev ⟨[], [], [], [], [(5, ⟨0, 0⟩)], [], 1⟩ =
      (⟨0, 0⟩, ⟨[], [], [], [], [(5, ⟨0, 0⟩)], [], 1⟩) ∧
    ((triangulateShape solidRev TContext.init).2.tessellationCount = 0 + 1 ∧
      alookup (triangulateShape solidRev TContext.init).2.processedShapeMap
        (Shape.tshape solidRev) =
        some (triangulateShape solidRev TContext.init).1) := by
  constructor
  · exact C3_dedup_single_tessellation.1 solidRev
      ⟨[], [], [], [], [(5, ⟨0, 0⟩)], [], 1⟩ ⟨0, 0⟩ (by decide)
  · exact C3_dedup_single_tessellation.2.1 solidRev TContext.init (by decide)

/-! ## Claim C9 -/

theorem processEdge_set_of_not_mem (p : Trsf) (ft : Option PolyTriangulation)
    (acc : FaceAcc) (e : EdgeData) (h : e.tshape ∉ acc.processedEdgeSet) :
    (processEdge p ft acc e).processedEdgeSet =
      acc.processedEdgeSet ++ [e.tshape] := by
  unfold processEdge
  rw [if_neg h]
  split
  · split <;> rfl
  · rw [sampleEdgeFallback_set]
  · rw [sampleEdgeFallback_set]

/-- C9, counterexample: for a concrete document with two distinct solids
whose faces share the edge identity 7, only the first-processed solid's
`LineGeometry` receives the edge's segments — the model has a single
line-geometry entry and the second-processed solid's mesh node has no
line geometry at all, contradicting the claim that an edge identity
occurring in two different shapes contributes to each shape's
`LineGeometry`. -/
theorem C9_edge_scope_counterexample :
    (TriangulationContext.compute docSharedEdge 10).1.lines.length = 1 ∧
    (TriangulationContext.compute docSharedEdge 10).1.meshes.length = 3 ∧
    ((TriangulationContext.compute docSharedEdge 10).1.meshes.getD 1 default).lineGeometryIndex = 0 ∧
    ((TriangulationContext.compute docSharedEdge 10).1.meshes.getD 2 default).lineGeometryIndex = -1 := by
  refine ⟨by decide, by decide, by decide, by decide⟩

/-- C9 (amended): visited-edge tracking is scoped to the whole
triangulation pass, not to one shape — an edge whose identity is already
in the visited set contributes nothing and the set is unchanged (so within
one shape an edge shared by two faces contributes segments exactly once),
a new edge identity is marked visited, and `triangulateShape` never
removes identities from the set, so an edge identity occurring in two
different shapes contributes line segments only to the shape processed
first. -/
theorem C9_edge_tracking_pass_global :
    (∀ (p : Trsf) (ft : Option PolyTriangulation) (acc : FaceAcc) (e : EdgeData),
      e.tshape ∈ acc.processedEdgeSet → processEdge p ft acc e = acc) ∧
    (∀ (p : Trsf) (ft : Option PolyTriangulation) (acc : FaceAcc) (e : EdgeData),
      e.tshape ∈ (processEdge p ft acc e).processedEdgeSet) ∧
    (∀ (sh : Shape) (st : TContext) (x : Nat),
      x ∈ st.processedEdgeSet →
      x ∈ (triangulateShape sh st).2.processedEdgeSet) := by
  refine ⟨?_, ?_, ?_⟩
  · intro p ft acc e h
    unfold processEdge
    rw [if_pos h]
  · intro p ft acc e
    by_cases h : e.tshape ∈ acc.processedEdgeSet
    · unfold processEdge
      rw [if_pos h]
      exact h
    · rw [processEdge_set_of_not_mem p ft acc e h]
      exact List.mem_append_right _ (List.mem_singleton.mpr rfl)
  · intro sh st x hx
    rcases hl : alookup st.processedShapeMap sh.tshape with _ | info
    · simp only [triangulateShape, hl]
      exact foldl_processFace_set_mono _ _ _ _ hx
    · simp only [triangulateShape, hl]
      exact hx

/-- C9, witness: the tracking statements instantiated concretely — the
shared edge of the fixture is skipped when its identity is already
visited, is marked visited from an empty set, and survives a
`triangulateShape` run of an unrelated solid. -/
theorem C9_edge_tracking_pass_global_witness :
    processEdge Trsf.id (some unitPT) ⟨⟨[], [], [], [], []⟩, ⟨[], []⟩, [7]⟩ sharedEdge =
      ⟨⟨[], [], [], [], []⟩, ⟨[], []⟩, [7]⟩ ∧
    sharedEdge.tshape ∈ (processEdge Trsf.id (some unitPT)
      ⟨⟨[], [], [], [], []⟩, ⟨[], []⟩, []⟩ sharedEdge).processedEdgeSet ∧
    (7 : Nat) ∈ (triangulateShape solidRev
      ⟨[], [], [], [], [], [7], 0⟩).2.processedEdgeSet := by
  refine ⟨?_, ?_, ?_⟩
  · exact C9_edge_tracking_pass_global.1 Trsf.id (some unitPT)
      ⟨⟨[], [], [], [], []⟩, ⟨[], []⟩, [7]⟩ sharedEdge (by decide)
  · exact C9_edge_tracking_pass_global.2.1 Trsf.id (some unitPT)
      ⟨⟨[], [], [], [], []⟩, ⟨[], []⟩, []⟩ sharedEdge
  · exact C9_edge_tracking_pass_global.2.2 solidRev
      ⟨[], [], [], [], [], [7], 0⟩ 7 (by decide)

/-! ## Lemmas toward the model-wide invariants (claims C5 and C10) -/

theorem IdxOk.mono {idx : Int} {n n' : Nat} (h : IdxOk idx n) (hle : n ≤ n') :
    IdxOk idx n' := by
  rcases h with h | ⟨h1, h2⟩
  · exact Or.inl h
  · exact Or.inr ⟨h1, lt_of_lt_of_le h2 (by exact_mod_cast hle)⟩

theorem length_flatMap_triple {α β : Type} (l : List α) (f : α → List β)
    (h : ∀ x ∈ l, (f x).length = 3) :
    (l.flatMap f).length = 3 * l.length := by
  induction l with
  | nil => simp
  | cons x xs ih =>
    simp only [List.flatMap_cons, List.length_append, List.length_cons]
    rw [h x (List.mem_cons_self x xs), ih (fun y hy => h y (List.mem_cons_of_mem x hy))]
    ring

theorem coords_length (v : Vec3) : v.coords.length = 3 := rfl

theorem emplaceEntry_spec {α : Type} (idOf : α → Nat) (m : List (Nat × α))
    (k : Nat) (v : α) (hv : idOf v = m.length)
    (h : ∀ e ∈ m, idOf e.2 < m.length) :
    (∀ e ∈ (emplaceEntry m k v).1, idOf e.2 < (emplaceEntry m k v).1.length) ∧
    idOf (emplaceEntry m k v).2 < (emplaceEntry m k v).1.length ∧
    m.length ≤ (emplaceEntry m k v).1.length ∧
    (∀ e ∈ (emplaceEntry m k v).1, e ∈ m ∨ e = (k, v)) := by
  unfold emplaceEntry
  rcases hl : alookup m k with _ | old
  · simp only []
    refine ⟨?_, ?_, ?_, ?_⟩
    · intro e he
      rcases List.mem_append.mp he with he | he
      · calc idOf e.2 < m.length := h e he
          _ ≤ (m ++ [(k, v)]).length := by simp
      · rw [List.mem_singleton.mp he]
        simp [hv]
    · simp [hv]
    · simp
    · intro e he
      rcases List.mem_append.mp he with he | he
      · exact Or.inl he
      · exact Or.inr (List.mem_singleton.mp he)
  · simp only []
    obtain ⟨e, hem, hev⟩ := alookup_mem hl
    refine ⟨h, ?_, le_refl _, fun e he => Or.inl he⟩
    rw [← hev]
    exact h e hem

theorem densify_length {α β : Type} [Inhabited β] (idOf : α → Nat)
    (valOf : α → β) (m : List (Nat × α)) :
    (densify idOf valOf m).length = m.length := by
  simp [densify]

theorem mem_densify {α β : Type} [Inhabited β] (idOf : α → Nat)
    (valOf : α → β) (m : List (Nat × α)) (x : β)
    (h : x ∈ densify idOf valOf m) :
    x = default ∨ ∃ e ∈ m, x = valOf e.2 := by
  unfold densify at h
  rcases List.mem_map.mp h with ⟨i, _, hx⟩
  rcases hf : m.find? (fun e => idOf e.2 == i) with _ | e
  · rw [hf] at hx
    exact Or.inl hx.symm
  · rw [hf] at hx
    exact Or.inr ⟨e, List.mem_of_find?_eq_some hf, hx.symm⟩

theorem TriInv_empty : TriInv ⟨[], [], [], [], []⟩ := by
  refine ⟨rfl, rfl, rfl, ?_⟩
  intro i hi
  cases hi

theorem processFace_TriInv (p : Trsf) (acc : FaceAcc) (face : Face)
    (hwf : ∀ pt, face.triangulation = some pt → pt.WF)
    (h : TriInv acc.triData) : TriInv (processFace p acc face).triData := by
  rcases ht : face.triangulation with _ | pt
  · rw [processFace_triData_none p acc face ht]
    exact h
  · rcases hb : face.uvBounds with ⟨umin, umax, vmin, vmax⟩
    rw [processFace_triData_some p acc face pt umin umax vmin vmax ht hb]
    obtain ⟨hn, _, htri⟩ := hwf pt ht
    obtain ⟨e1, e2, e3, e4⟩ := h
    have hplen : (pt.nodes.flatMap
        (fun n => ((p.inv.comp face.location).applyPnt n).coords)).length =
        3 * pt.nodes.length :=
      length_flatMap_triple _ _ (fun x _ => coords_length _)
    have hnlen : (pt.normals.flatMap (fun n =>
        if Bool.xor face.reversed
            (decide ((p.inv.comp face.location).linear.det < 0)) then
          ((p.inv.comp face.location).applyDir n.neg).coords
        else ((p.inv.comp face.location).applyDir n).coords)).length =
        3 * pt.normals.length := by
      refine length_flatMap_triple _ _ (fun x _ => ?_)
      split <;> exact coords_length _
    have hilen : (pt.triangles.flatMap (fun t =>
        if face.reversed then
          [t.1 - 1 + acc.triData.positions.length / 3,
            t.2.1 - 1 + acc.triData.positions.length / 3,
            t.2.2 - 1 + acc.triData.positions.length / 3]
        else
          [t.1 - 1 + acc.triData.positions.length / 3,
            t.2.2 - 1 + acc.triData.positions.length / 3,
            t.2.1 - 1 + acc.triData.positions.length / 3])).length =
        3 * pt.triangles.length := by
      refine length_flatMap_triple _ _ (fun x _ => ?_)
      split <;> rfl
    refine ⟨?_, ?_, ?_, ?_⟩
    · simp only [List.length_append, hplen, hnlen, e1, hn]
    · simp only [List.length_append, hplen]
      omega
    · simp only [List.length_append, hilen, e3]
      omega
    · intro i hi
      simp only [List.length_append, hplen]
      rcases List.mem_append.mp hi with hi | hi
      · have := e4 i hi
        omega
      · rcases List.mem_flatMap.mp hi with ⟨t, htm, hit⟩
        obtain ⟨⟨hta, htb⟩, ⟨htc, htd⟩, ⟨hte, htf⟩⟩ := htri t htm
        rcases hr : face.reversed with _ | _ <;> rw [hr] at hit <;>
          simp only [Bool.false_eq_true, if_false, if_true, List.mem_cons,
            List.not_mem_nil, or_false] at hit <;>
          rcases hit with h | h | h <;> omega

theorem foldl_processFace_TriInv (p : Trsf) (faces : List Face)
    (acc : FaceAcc)
    (hwf : ∀ f ∈ faces, ∀ pt, f.triangulation = some pt → pt.WF)
    (h : TriInv acc.triData) :
    TriInv (faces.foldl (processFace p) acc).triData := by
  induction faces generalizing acc with
  | nil => exact h
  | cons f fs ih =>
    rw [List.foldl_cons]
    exact ih _ (fun g hg => hwf g (List.mem_cons_of_mem f hg))
      (processFace_TriInv p acc f (hwf f (List.mem_cons_self f fs)) h)

theorem Shape.WF.faces_wf {s : Shape} (h : s.WF) :
    ∀ f ∈ s.faces, ∀ pt, f.triangulation = some pt → pt.WF := by
  cases h with
  | mk t k l cs fs hf hc => exact hf

theorem Shape.WF.children_wf {s : Shape} (h : s.WF) :
    ∀ c ∈ s.children, c.WF := by
  cases h with
  | mk t k l cs fs hf hc => exact hc


theorem registerTriGeometry_spec (m : List (Nat × TriGeometryInfo)) (k : Nat)
    (g : TriGeometry) (hg : TriInv g)
    (h : ∀ e ∈ m, e.2.id < m.length ∧ TriInv e.2.geometry) :
    (∀ e ∈ (registerTriGeometry m k g).2,
      e.2.id < (registerTriGeometry m k g).2.length ∧ TriInv e.2.geometry) ∧
    IdxOk (registerTriGeometry m k g).1 (registerTriGeometry m k g).2.length ∧
    m.length ≤ (registerTriGeometry m k g).2.length := by
  unfold registerTriGeometry
  split
  · obtain ⟨hall, hid, hle, hsub⟩ := emplaceEntry_spec
      TriGeometryInfo.id m k ⟨m.length, g⟩ rfl (fun e he => (h e he).1)
    simp only [emplaceTri]
    refine ⟨?_, ?_, hle⟩
    · intro e he
      refine ⟨hall e he, ?_⟩
      rcases hsub e he with he' | he'
      · exact (h e he').2
      · rw [he']
        exact hg
    · exact Or.inr ⟨Int.ofNat_nonneg _, by exact_mod_cast hid⟩
  · exact ⟨h, Or.inl rfl, le_refl _⟩

theorem registerLineGeometry_spec (m : List (Nat × LineGeometryInfo)) (k : Nat)
    (g : LineGeometry) (h : ∀ e ∈ m, e.2.id < m.length) :
    (∀ e ∈ (registerLineGeometry m k g).2,
      e.2.id < (registerLineGeometry m k g).2.length) ∧
    IdxOk (registerLineGeometry m k g).1 (registerLineGeometry m k g).2.length ∧
    m.length ≤ (registerLineGeometry m k g).2.length := by
  unfold registerLineGeometry
  split
  · obtain ⟨hall, hid, hle, _⟩ := emplaceEntry_spec
      LineGeometryInfo.id m k ⟨m.length, g⟩ rfl h
    simp only [emplaceLine]
    exact ⟨hall, Or.inr ⟨Int.ofNat_nonneg _, by exact_mod_cast hid⟩, hle⟩
  · exact ⟨h, Or.inl rfl, le_refl _⟩

theorem triangulateShape_meshes (sh : Shape) (st : TContext) :
    (triangulateShape sh st).2.meshes = st.meshes := by
  rcases hl : alookup st.processedShapeMap sh.tshape with _ | info <;>
    simp only [triangulateShape, hl]

theorem triangulateShape_materialMap (sh : Shape) (st : TContext) :
    (triangulateShape sh st).2.materialMap = st.materialMap := by
  rcases hl : alookup st.processedShapeMap sh.tshape with _ | info <;>
    simp only [triangulateShape, hl]

theorem triangulateShape_spec (sh : Shape) (st : TContext)
    (hwf : ∀ f ∈ sh.faces, ∀ pt, f.triangulation = some pt → pt.WF)
    (h : StInv st) :
    StInv (triangulateShape sh st).2 ∧
    IdxOk (triangulateShape sh st).1.triGeometryIndex
      (triangulateShape sh st).2.triGeometryMap.length ∧
    IdxOk (triangulateShape sh st).1.lineGeometryIndex
      (triangulateShape sh st).2.lineGeometryMap.length ∧
    st.triGeometryMap.length ≤ (triangulateShape sh st).2.triGeometryMap.length ∧
    st.lineGeometryMap.length ≤ (triangulateShape sh st).2.lineGeometryMap.length := by
  obtain ⟨hTriMap, hLineMap, hMatMap, hProc, hMesh⟩ := h
  rcases hl : alookup st.processedShapeMap sh.tshape with _ | info
  · -- first visit: the tessellation body runs
    simp only [triangulateShape, hl]
    have hTriData : TriInv (sh.faces.foldl (processFace sh.location)
        ⟨⟨[], [], [], [], []⟩, ⟨[], []⟩, st.processedEdgeSet⟩).triData :=
      foldl_processFace_TriInv sh.location sh.faces _ hwf TriInv_empty
    obtain ⟨htAll, htIdx, htLe⟩ := registerTriGeometry_spec st.triGeometryMap
      sh.tshape (sh.faces.foldl (processFace sh.location)
        ⟨⟨[], [], [], [], []⟩, ⟨[], []⟩, st.processedEdgeSet⟩).triData
      hTriData hTriMap
    obtain ⟨hlAll, hlIdx, hlLe⟩ := registerLineGeometry_spec st.lineGeometryMap
      sh.tshape (sh.faces.foldl (processFace sh.location)
        ⟨⟨[], [], [], [], []⟩, ⟨[], []⟩, st.processedEdgeSet⟩).lineData
      hLineMap
    refine ⟨⟨htAll, hlAll, hMatMap, ?_, ?_⟩, htIdx, hlIdx, htLe, hlLe⟩
    · intro e he
      rcases List.mem_append.mp he with he | he
      · obtain ⟨hb1, hb2⟩ := hProc e he
        exact ⟨hb1.mono htLe, hb2.mono hlLe⟩
      · rw [List.mem_singleton.mp he]
        exact ⟨htIdx, hlIdx⟩
    · intro m hm
      obtain ⟨hb1, hb2, hb3⟩ := hMesh m hm
      exact ⟨hb1.mono htLe, hb2.mono hlLe, hb3⟩
  · -- repeat visit: everything unchanged
    simp only [triangulateShape, hl]
    obtain ⟨e, he, hev⟩ := alookup_mem hl
    have hib := hProc e he
    rw [hev] at hib
    exact ⟨⟨hTriMap, hLineMap, hMatMap, hProc, hMesh⟩, hib.1, hib.2,
      le_refl _, le_refl _⟩

theorem resolveNameAndMaterial_spec (doc : DocTree) (tsh : Nat)
    (m : List (Nat × MaterialInfo)) (h : ∀ e ∈ m, e.2.id < m.length) :
    (∀ e ∈ (resolveNameAndMaterial doc tsh m).2.2,
      e.2.id < (resolveNameAndMaterial doc tsh m).2.2.length) ∧
    IdxOk (resolveNameAndMaterial doc tsh m).2.1
      (resolveNameAndMaterial doc tsh m).2.2.length ∧
    m.length ≤ (resolveNameAndMaterial doc tsh m).2.2.length := by
  unfold resolveNameAndMaterial
  rcases hs : alookup doc.search tsh with _ | l
  · exact ⟨h, Or.inl rfl, le_refl _⟩
  · simp only []
    rcases hc : getLabelColor doc (resolveReferredShapeLabel doc l) with _ | c
    · exact ⟨h, Or.inl rfl, le_refl _⟩
    · simp only []
      obtain ⟨hall, hid, hle, _⟩ := emplaceEntry_spec MaterialInfo.id m
        (resolveReferredShapeLabel doc l) ⟨m.length, c⟩ rfl h
      simp only [emplaceMat]
      exact ⟨hall, Or.inr ⟨Int.ofNat_nonneg _, by exact_mod_cast hid⟩, hle⟩

theorem processFrame_spec (doc : DocTree) (f : StackFrame) (st : TContext)
    (hwf : f.shape.WF) (h : StInv st) :
    StInv (processFrame doc f st).1 ∧
    (∀ fr ∈ (processFrame doc f st).2,
      fr.shape ∈ f.shape.children ∧
      fr.parentMeshIndex = (st.meshes.length : Int)) := by
  obtain ⟨hTriMap, hLineMap, hMatMap, hProc, hMesh⟩ := h
  obtain ⟨hmAll, hmIdx, hmLe⟩ :=
    resolveNameAndMaterial_spec doc f.shape.tshape st.materialMap hMatMap
  have hMesh1 : ∀ mm ∈ st.meshes,
      IdxOk mm.triGeometryIndex st.triGeometryMap.length ∧
      IdxOk mm.lineGeometryIndex st.lineGeometryMap.length ∧
      IdxOk mm.materialIndex
        (resolveNameAndMaterial doc f.shape.tshape st.materialMap).2.2.length := by
    intro mm hmm
    obtain ⟨b1, b2, b3⟩ := hMesh mm hmm
    exact ⟨b1, b2, b3.mono hmLe⟩
  have hSt1 : StInv { st with
      materialMap := (resolveNameAndMaterial doc f.shape.tshape st.materialMap).2.2 } :=
    ⟨hTriMap, hLineMap, hmAll, fun e he => hProc e he, hMesh1⟩
  unfold processFrame
  rcases hk : f.shape.kind with _ | _ | _ | _ | _ | _ <;> simp only [hk]
  case compound | compsolid =>
    refine ⟨?_, ?_⟩
    · obtain ⟨i1, i2, i3, i4, i5⟩ := hSt1
      refine ⟨i1, i2, i3, i4, ?_⟩
      intro mm hmm
      rcases List.mem_append.mp hmm with hmm | hmm
      · exact i5 mm hmm
      · rw [List.mem_singleton.mp hmm]
        exact ⟨Or.inl rfl, Or.inl rfl, hmIdx⟩
    · intro fr hfr
      rw [List.mem_reverse] at hfr
      rcases List.mem_map.mp hfr with ⟨c, hc, hfc⟩
      rw [← hfc]
      exact ⟨hc, rfl⟩
  case solid | shell =>
    obtain ⟨j1, j2, j3, _, _⟩ := triangulateShape_spec f.shape
      { st with materialMap :=
          (resolveNameAndMaterial doc f.shape.tshape st.materialMap).2.2 }
      hwf.faces_wf hSt1
    refine ⟨?_, ?_⟩
    · obtain ⟨i1, i2, i3, i4, i5⟩ := j1
      refine ⟨i1, i2, i3, i4, ?_⟩
      intro mm hmm
      rcases List.mem_append.mp hmm with hmm | hmm
      · exact i5 mm hmm
      · rw [List.mem_singleton.mp hmm]
        refine ⟨j2, j3, ?_⟩
        rw [triangulateShape_materialMap]
        exact hmIdx
    · intro fr hfr
      cases hfr
  case edge | other =>
    refine ⟨?_, ?_⟩
    · obtain ⟨i1, i2, i3, i4, i5⟩ := hSt1
      refine ⟨i1, i2, i3, i4, ?_⟩
      intro mm hmm
      rcases List.mem_append.mp hmm with hmm | hmm
      · exact i5 mm hmm
      · rw [List.mem_singleton.mp hmm]
        exact ⟨Or.inl rfl, Or.inl rfl, hmIdx⟩
    · intro fr hfr
      cases hfr

theorem getD_append_last {α : Type} [Inhabited α] (l : List α) (x : α) :
    (l ++ [x]).getD l.length default = x := by
  rw [List.getD_append_right l [x] default l.length (le_refl _)]
  simp

theorem processFrame_meshes_spec (doc : DocTree) (f : StackFrame)
    (st : TContext) :
    (processFrame doc f st).1.meshes.length = st.meshes.length + 1 ∧
    (∀ i, i < st.meshes.length →
      (processFrame doc f st).1.meshes.getD i default =
        st.meshes.getD i default) ∧
    ((processFrame doc f st).1.meshes.getD st.meshes.length
        default).parentMeshIndex = f.parentMeshIndex := by
  unfold processFrame
  rcases hk : f.shape.kind with _ | _ | _ | _ | _ | _ <;> simp only [hk]
  case solid | shell =>
    rw [triangulateShape_meshes]
    refine ⟨by simp, ?_, ?_⟩
    · intro i hi
      exact List.getD_append _ _ _ _ hi
    · rw [getD_append_last]
  all_goals
    refine ⟨by simp, ?_, ?_⟩
    · intro i hi
      exact List.getD_append _ _ _ _ hi
    · rw [getD_append_last]

theorem processFrame_frames_spec (doc : DocTree) (f : StackFrame)
    (st : TContext) :
    ∀ fr ∈ (processFrame doc f st).2,
      fr.shape ∈ f.shape.children ∧
      fr.parentMeshIndex = (st.meshes.length : Int) := by
  unfold processFrame
  rcases hk : f.shape.kind with _ | _ | _ | _ | _ | _ <;> simp only [hk]
  case compound | compsolid =>
    intro fr hfr
    rw [List.mem_reverse] at hfr
    rcases List.mem_map.mp hfr with ⟨c, hc, hfc⟩
    rw [← hfc]
    exact ⟨hc, rfl⟩
  all_goals
    intro fr hfr
    cases hfr

theorem runStack_meshParentInv (doc : DocTree) :
    ∀ (fuel : Nat) (stack : List StackFrame) (st : TContext),
      MeshParentInv st.meshes → StackParentInv st.meshes stack →
      MeshParentInv (runStack doc fuel stack st).meshes := by
  intro fuel
  induction fuel with
  | zero => intro stack st h _; exact h
  | succ fl ih =>
    intro stack st h hs
    cases stack with
    | nil => exact h
    | cons f rest =>
      simp only [runStack]
      obtain ⟨hlen, hpre, hlast⟩ := processFrame_meshes_spec doc f st
      apply ih
      · intro i hi
        rw [hlen] at hi
        by_cases hlt : i < st.meshes.length
        · rw [hpre i hlt]
          exact h i hlt
        · have hieq : i = st.meshes.length := by omega
          subst hieq
          rw [hlast]
          rcases hs f (List.mem_cons_self f rest) with h1 | ⟨h2a, h2b⟩
          · exact Or.inl h1
          · exact Or.inr ⟨h2a, h2b⟩
      · intro fr hfr
        rcases List.mem_append.mp hfr with hin | hin
        · obtain ⟨_, hp⟩ := processFrame_frames_spec doc f st fr hin
          right
          rw [hp, hlen]
          refine ⟨Int.ofNat_nonneg _, ?_⟩
          exact_mod_cast Nat.lt_succ_self _
        · rcases hs fr (List.mem_cons_of_mem f hin) with h1 | ⟨h2a, h2b⟩
          · exact Or.inl h1
          · right
            refine ⟨h2a, lt_of_lt_of_le h2b ?_⟩
            rw [hlen]
            exact_mod_cast Nat.le_succ _

theorem computeState_meshParentInv (doc : DocTree) (fuel : Nat) :
    MeshParentInv ((doc.roots.foldl
      (fun st root => resolveShapeTree doc fuel root st) TContext.init).meshes) := by
  have haux : ∀ (roots : List Shape) (st : TContext), MeshParentInv st.meshes →
      MeshParentInv ((roots.foldl
        (fun st root => resolveShapeTree doc fuel root st) st).meshes) := by
    intro roots
    induction roots with
    | nil => intro st h; exact h
    | cons r rs ih =>
      intro st h
      rw [List.foldl_cons]
      apply ih
      unfold resolveShapeTree
      apply runStack_meshParentInv doc fuel _ _ h
      intro fr hfr
      rw [List.mem_singleton.mp hfr]
      exact Or.inl rfl
  apply haux
  intro i hi
  simp [TContext.init] at hi

theorem runStack_StInv (doc : DocTree) :
    ∀ (fuel : Nat) (stack : List StackFrame) (st : TContext),
      (∀ fr ∈ stack, fr.shape.WF) → StInv st →
      StInv (runStack doc fuel stack st) := by
  intro fuel
  induction fuel with
  | zero => intro stack st _ h; exact h
  | succ fl ih =>
    intro stack st hstack h
    cases stack with
    | nil => exact h
    | cons f rest =>
      simp only [runStack]
      have hw := hstack f (List.mem_cons_self f rest)
      obtain ⟨h1, h2⟩ := processFrame_spec doc f st hw h
      apply ih _ _ ?_ h1
      intro fr hfr
      rcases List.mem_append.mp hfr with hin | hin
      · exact hw.children_wf fr.shape (h2 fr hin).1
      · exact hstack fr (List.mem_cons_of_mem f hin)

theorem StInv_init : StInv TContext.init := by
  refine ⟨?_, ?_, ?_, ?_, ?_⟩ <;>
    intro e he <;> exact absurd he (List.not_mem_nil e)

theorem computeState_StInv (doc : DocTree) (fuel : Nat)
    (hwf : ∀ r ∈ doc.roots, r.WF) :
    StInv (doc.roots.foldl
      (fun st root => resolveShapeTree doc fuel root st) TContext.init) := by
  have haux : ∀ (roots : List Shape), (∀ r ∈ roots, r.WF) →
      ∀ (st : TContext), StInv st →
      StInv (roots.foldl (fun st root => resolveShapeTree doc fuel root st) st) := by
    intro roots
    induction roots with
    | nil => intro _ st h; exact h
    | cons r rs ih =>
      intro hroots st h
      rw [List.foldl_cons]
      apply ih (fun x hx => hroots x (List.mem_cons_of_mem r hx))
      unfold resolveShapeTree
      apply runStack_StInv doc fuel _ _ ?_ h
      intro fr hfr
      rw [List.mem_singleton.mp hfr]
      exact hroots r (List.mem_cons_self r rs)
  exact haux doc.roots hwf TContext.init StInv_init

/-! ## Claim C10 -/

/-- C10: in the final model's mesh-node list, every node's
`parentMeshIndex` is either `-1` (a root) or a non-negative index that is
strictly less than the node's own position — a parent always appears in
the array before all of its children; this holds for every document and
every loop bound. -/
theorem C10_parent_before_child (doc : DocTree) (fuel : Nat) (i : Nat)
    (h : i < (TriangulationContext.compute doc fuel).1.meshes.length) :
    (((TriangulationContext.compute doc fuel).1.meshes.getD i
        default).parentMeshIndex = -1) ∨
    (0 ≤ ((TriangulationContext.compute doc fuel).1.meshes.getD i
        default).parentMeshIndex ∧
      ((TriangulationContext.compute doc fuel).1.meshes.getD i
        default).parentMeshIndex < (i : Int)) :=
  computeState_meshParentInv doc fuel i h

/-- C10, witness: in the dedup fixture's model the root compound sits at
position 0 with no parent and the two solid instances point back at it. -/
theorem C10_parent_before_child_witness :
    2 < (TriangulationContext.compute docDedup 10).1.meshes.length ∧
    ((((TriangulationContext.compute docDedup 10).1.meshes.getD 2
        default).parentMeshIndex = -1) ∨
      (0 ≤ ((TriangulationContext.compute docDedup 10).1.meshes.getD 2
          default).parentMeshIndex ∧
        ((TriangulationContext.compute docDedup 10).1.meshes.getD 2
          default).parentMeshIndex < (2 : Int))) :=
  ⟨by decide, C10_parent_before_child docDedup 10 2 (by decide)⟩

/-! ## Claim C5 -/

/-- C5: in the final model, every mesh node's present (non-`-1`)
tri-geometry, line-geometry and material index is strictly below the
length of the corresponding array; and every `TriGeometry` has equally
long position and normal buffers, an index-buffer length divisible by 3,
and every index value strictly below the vertex count
`positions.length / 3` — given well-formed tessellator output on every
face of the document. -/
theorem C5_index_validity (doc : DocTree) (fuel : Nat)
    (hwf : ∀ r ∈ doc.roots, r.WF) :
    (∀ m ∈ (TriangulationContext.compute doc fuel).1.meshes,
      (m.triGeometryIndex ≠ -1 →
        0 ≤ m.triGeometryIndex ∧
        m.triGeometryIndex <
          ((TriangulationContext.compute doc fuel).1.tris.length : Int)) ∧
      (m.lineGeometryIndex ≠ -1 →
        0 ≤ m.lineGeometryIndex ∧
        m.lineGeometryIndex <
          ((TriangulationContext.compute doc fuel).1.lines.length : Int)) ∧
      (m.materialIndex ≠ -1 →
        0 ≤ m.materialIndex ∧
        m.materialIndex <
          ((TriangulationContext.compute doc fuel).1.materials.length : Int))) ∧
    (∀ g ∈ (TriangulationContext.compute doc fuel).1.tris,
      g.positions.length = g.normals.length ∧
      g.indices.length % 3 = 0 ∧
      ∀ i ∈ g.indices, i < g.positions.length / 3) := by
  obtain ⟨hTriMap, hLineMap, hMatMap, _, hMesh⟩ := computeState_StInv doc fuel hwf
  constructor
  · intro m hm
    obtain ⟨b1, b2, b3⟩ := hMesh m hm
    refine ⟨?_, ?_, ?_⟩
    · intro hne
      rcases b1 with hb | ⟨hb1, hb2⟩
      · exact absurd hb hne
      · refine ⟨hb1, ?_⟩
        simp only [TriangulationContext.compute, densify_length]
        exact hb2
    · intro hne
      rcases b2 with hb | ⟨hb1, hb2⟩
      · exact absurd hb hne
      · refine ⟨hb1, ?_⟩
        simp only [TriangulationContext.compute, densify_length]
        exact hb2
    · intro hne
      rcases b3 with hb | ⟨hb1, hb2⟩
      · exact absurd hb hne
      · refine ⟨hb1, ?_⟩
        simp only [TriangulationContext.compute, densify_length]
        exact hb2
  · intro g hg
    have hg' : g = default ∨
        ∃ e ∈ (doc.roots.foldl
          (fun st root => resolveShapeTree doc fuel root st)
          TContext.init).triGeometryMap, g = e.2.geometry :=
      mem_densify TriGeometryInfo.id TriGeometryInfo.geometry _ g hg
    rcases hg' with hgd | ⟨e, he, hge⟩
    · subst hgd
      exact ⟨rfl, rfl, fun i hi => absurd hi (List.not_mem_nil i)⟩
    · obtain ⟨_, ht1, ht2, ht3, ht4⟩ := hTriMap e he
      subst hge
      exact ⟨ht1, ht3, ht4⟩

theorem docDedup_roots_WF : ∀ r ∈ docDedup.roots, r.WF := by
  intro r hr
  simp only [docDedup, List.mem_cons, List.not_mem_nil, or_false] at hr
  subst hr
  refine Shape.WF.mk _ _ _ _ _ ?_ ?_
  · intro f hf
    exact absurd hf (List.not_mem_nil f)
  · intro c hc
    simp only [List.mem_cons, List.not_mem_nil, or_false] at hc
    rcases hc with h | h <;> subst h <;>
      refine Shape.WF.mk _ _ _ _ _ ?_ ?_ <;>
      first
        | (intro f hf pt hpt
           simp only [List.mem_cons, List.not_mem_nil, or_false] at hf
           subst hf
           have hpt' : pt = unitPT := by
             simpa [faceFwd] using hpt.symm
           subst hpt'
           decide)
        | (intro c hc
           exact absurd hc (List.not_mem_nil c))

/-- C5, witness: the mesh-index part of the statement instantiated at the
dedup fixture — the second mesh node's present tri-geometry index is in
range of the model's tri array. -/
theorem C5_index_validity_witness :
    0 ≤ ((TriangulationContext.compute docDedup 10).1.meshes.getD 1
        default).triGeometryIndex ∧
    ((TriangulationContext.compute docDedup 10).1.meshes.getD 1
        default).triGeometryIndex <
      ((TriangulationContext.compute docDedup 10).1.tris.length : Int) := by
  have hlen : 1 < (TriangulationContext.compute docDedup 10).1.meshes.length := by
    decide
  have hmem : (TriangulationContext.compute docDedup 10).1.meshes.getD 1 default ∈
      (TriangulationContext.compute docDedup 10).1.meshes := by
    rw [List.getD_eq_getElem _ _ hlen]
    exact List.getElem_mem hlen
  exact ((C5_index_validity docDedup 10 docDedup_roots_WF).1 _ hmem).1 (by decide)
